import Mathlib

/-!
# ctrl-zoom: LANC receiver firmware (`firmware/ctrl-zoom.c`)

A shallow embedding of the interrupt handlers and of the command interpreter of the
ATtiny LANC receiver, followed by theorems about them.

Conventions of the embedding:

* `uint8_t` objects and 8-bit I/O registers are `Nat`; every store truncates with `% 256`.
* C expressions are evaluated after integer promotion to `int`, which has 16 bits on AVR.
  Shifts and masks of the non-negative values that occur are the `Nat` operations; the
  complement `~e` is taken on the 16-bit twos-complement pattern (`int_not`), whose low
  eight bits are what a store to an 8-bit object keeps.
* Every store to a volatile object (an I/O register, `recvd[i]`, `data_received`) updates
  the state and is also appended, in program order, to `State.trace`.
* `recvd[byte_cnt]` with `byte_cnt ≥ 2` is a store outside the array: the handler has no
  defined result there (`none`).
* The hardware around the program, Timer/Counter0 and the counter of the serial sampler,
  is not in the source. Where a statement needs it, it is modelled by the definitions
  whose description starts with `Modelled from the spec:`; stores to the timer registers
  are kept in `Timer0` and are not traced.
-/

set_option maxRecDepth 100000

namespace CtrlZoom

/-! ## Machine integers and device constants -/

/-- The C operator `~` on an `int` (16 bits), as a twos-complement bit pattern. -/
def int_not (x : Nat) : Nat := x ^^^ 0xFFFF

/-- The avr-libc helper `_BV(bit)`, that is `1 << bit`. -/
def _BV (bit : Nat) : Nat := 1 <<< bit

/-- Port B bit numbers of `avr/io.h`. -/
def PB0 : Nat := 0
/-- Port B bit 1. -/
def PB1 : Nat := 1
/-- Port B bit 2. -/
def PB2 : Nat := 2
/-- Port B bit 3. -/
def PB3 : Nat := 3
/-- Port B bit 4. -/
def PB4 : Nat := 4

/-- USICR bit 6 of `avr/io.h`: counter overflow interrupt enable. -/
def USIOIE : Nat := 6
/-- USICR bit 2 of `avr/io.h`: clock source select 0 (Timer0 compare match). -/
def USICS0 : Nat := 2
/-- USISR bit 6 of `avr/io.h`: counter overflow interrupt flag (cleared by writing one). -/
def USIOIF : Nat := 6

/-- LANC data pin. -/
def PIN_DATA : Nat := PB0
/-- Driver inputs 1 and 4 (forward). -/
def PIN_FW : Nat := PB1
/-- Driver inputs 2 and 3 (reverse). -/
def PIN_REV : Nat := PB2
/-- Driver enable inputs, OC1B. -/
def PIN_EN : Nat := PB4
/-- Status LED. -/
def PIN_LED : Nat := PB3

/-- Available motor speeds. -/
def speeds : List Nat := [2, 4, 8, 16, 32, 64, 128, 255]

/-! ## State -/

/-- A store to a volatile object, as recorded in the trace. -/
inductive Store where
  | PORTB (v : Nat)
  | DDRB (v : Nat)
  | USICR (v : Nat)
  | USISR (v : Nat)
  | OCR1B (v : Nat)
  | recvd (i : Nat) (v : Nat)
  | data_received (b : Bool)
  deriving DecidableEq, Repr

/-- Program variables, the I/O registers the handlers write, and the trace of volatile
stores performed so far. -/
structure State where
  byte_cnt : Nat
  bit_cnt : Nat
  recvd0 : Nat
  recvd1 : Nat
  data_received : Bool
  PORTB : Nat
  DDRB : Nat
  USICR : Nat
  USISR : Nat
  OCR1B : Nat
  trace : List Store
  deriving DecidableEq, Repr

namespace State

/-- Store to `PORTB`. -/
def setPORTB (s : State) (v : Nat) : State :=
  { s with PORTB := v, trace := s.trace ++ [Store.PORTB v] }

/-- Store to `DDRB`. -/
def setDDRB (s : State) (v : Nat) : State :=
  { s with DDRB := v, trace := s.trace ++ [Store.DDRB v] }

/-- Store to `USICR`. -/
def setUSICR (s : State) (v : Nat) : State :=
  { s with USICR := v, trace := s.trace ++ [Store.USICR v] }

/-- Store to `USISR`. -/
def setUSISR (s : State) (v : Nat) : State :=
  { s with USISR := v, trace := s.trace ++ [Store.USISR v] }

/-- Store to `OCR1B`. -/
def setOCR1B (s : State) (v : Nat) : State :=
  { s with OCR1B := v, trace := s.trace ++ [Store.OCR1B v] }

/-- Store to `data_received`. -/
def setDataReceived (s : State) (b : Bool) : State :=
  { s with data_received := b, trace := s.trace ++ [Store.data_received b] }

/-- Store `recvd[i] = v`; undefined outside the two-element array. -/
def setRecvd (s : State) (i v : Nat) : Option State :=
  match i with
  | 0 => some { s with recvd0 := v, trace := s.trace ++ [Store.recvd 0 v] }
  | 1 => some { s with recvd1 := v, trace := s.trace ++ [Store.recvd 1 v] }
  | _ => none

/-- Load `recvd[i]`; undefined outside the two-element array. -/
def getRecvd (s : State) (i : Nat) : Option Nat :=
  match i with
  | 0 => some s.recvd0
  | 1 => some s.recvd1
  | _ => none

/-- The cursor `(byte_cnt, bit_cnt)`. -/
def cursor (s : State) : Nat × Nat := (s.byte_cnt, s.bit_cnt)

/-- All 8-bit objects hold 8-bit values. -/
def wf (s : State) : Prop :=
  s.byte_cnt < 256 ∧ s.bit_cnt < 256 ∧ s.recvd0 < 256 ∧ s.recvd1 < 256 ∧
  s.PORTB < 256 ∧ s.DDRB < 256 ∧ s.USICR < 256 ∧ s.USISR < 256 ∧ s.OCR1B < 256

instance (s : State) : Decidable s.wf := by unfold wf; infer_instance

end State

/-- State at power-on: zero-initialised statics, I/O registers at their reset value,
nothing stored yet. -/
def powerOn : State :=
  { byte_cnt := 0, bit_cnt := 0, recvd0 := 0, recvd1 := 0, data_received := false,
    PORTB := 0, DDRB := 0, USICR := 0, USISR := 0, OCR1B := 0, trace := [] }

/-- The stores performed between state `s` and a later state `t`. -/
def writes (s t : State) : List Store := t.trace.drop s.trace.length

/-! ## USI LANC driver -/

/-- Bit reversal of a byte (`reverse_byte`). -/
def reverse_byte (x : Nat) : Nat :=
  let x := (((x >>> 1) &&& 0x55) ||| ((x <<< 1) &&& 0xaa)) % 256
  let x := (((x >>> 2) &&& 0x33) ||| ((x <<< 2) &&& 0xcc)) % 256
  let x := (((x >>> 4) &&& 0x0f) ||| ((x <<< 4) &&& 0xf0)) % 256
  x

/-- Handler `ISR(TIM0_COMPB_vect)`: at every bit transition, even during the pause. -/
def TIM0_COMPB (s : State) : State :=
  let s :=
    -- Are we in the pause?
    if s.byte_cnt &&& 8 ≠ 0 then s
    -- Begin start bit.
    else if s.bit_cnt = 0 then
      let s := s.setPORTB ((s.PORTB &&& int_not (_BV PIN_DATA)) % 256)
      let s := s.setDDRB ((s.DDRB ||| _BV PIN_DATA) % 256)
      s
    -- End start bit.
    else if s.bit_cnt = 1 then
      let s := s.setDDRB ((s.DDRB &&& int_not (_BV PIN_DATA)) % 256)
      let s := s.setPORTB ((s.PORTB ||| _BV PIN_DATA) % 256)
      -- Start the USI receiver on bytes 0 and 1.
      if s.byte_cnt < 2 then
        let s := s.setUSICR ((_BV USIOIE ||| _BV USICS0) % 256)
        let s := s.setUSISR ((_BV USIOIF ||| 8) % 256)
        s
      else s
    else s
  -- done: increment (byte_cnt, bit_cnt) before returning.
  let bit_cnt := (s.bit_cnt + 1) % 256
  if bit_cnt ≥ 12 then
    { s with byte_cnt := ((s.byte_cnt + 1) % 16) % 256, bit_cnt := 0 }
  else
    { s with bit_cnt := bit_cnt }

/-- Handler `ISR(USI_OVF_vect)`: when a complete byte is received; `USIBR` is the value
read from the USI buffer register. -/
def USI_OVF (USIBR : Nat) (s : State) : Option State := do
  let s := s.setUSICR 0
  let s ← s.setRecvd s.byte_cnt (int_not (reverse_byte USIBR) % 256)
  let s := if s.byte_cnt = 1 then s.setDataReceived true else s
  pure s

/-! ## Main program -/

/-- Power the motor (`control_motor`). -/
def control_motor (s : State) : State :=
  let output : Nat := 0
  if s.recvd0 = 0x28 then
    let output := if s.recvd1 &&& 0x10 ≠ 0 then _BV PIN_REV else _BV PIN_FW
    let output := (output ||| _BV PIN_LED) % 256
    let s := s.setOCR1B (speeds.getD ((s.recvd1 >>> 1) &&& 7) 0)
    s.setPORTB output
  else
    let s := s.setOCR1B 0
    s.setPORTB output

/-- One iteration of the main loop of `main` (the sleep is not modelled). -/
def mainStep (s : State) : State :=
  if s.data_received then
    let s := control_motor s
    s.setDataReceived false
  else s

/-- Cursor range predicate: `bit_cnt` in `[0,11]` and `byte_cnt` in `[0,15]`. -/
def cursorInv (s : State) : Prop := s.bit_cnt < 12 ∧ s.byte_cnt < 16

instance (s : State) : Decidable (cursorInv s) := by unfold cursorInv; infer_instance

/-- The state after `n` invocations of the tick handler. -/
def ticks : Nat → State → State
  | 0, s => s
  | n + 1, s => TIM0_COMPB (ticks n s)

/-! ## States and predicates used in the statements -/

/-- State with the command bytes `(0x28, 0xEE)` latched. -/
def moveEE : State := { powerOn with recvd0 := 0x28, recvd1 := 0xEE }

/-- State with the command bytes `(0x28, 0x12)` latched. -/
def move12 : State := { powerOn with recvd0 := 0x28, recvd1 := 0x12 }

/-- State two ticks into byte slot 1: cursor `(1, 1)`. -/
def slot1Bit1 : State := ticks 13 powerOn

/-- The stores `ws` drive the data line low: the data bit of the port register is cleared
and the data bit of the direction register is set. -/
def drivesDataLow (ws : List Store) : Prop :=
  (∃ p, Store.PORTB p ∈ ws ∧ p.testBit PIN_DATA = false) ∧
  (∃ d, Store.DDRB d ∈ ws ∧ d.testBit PIN_DATA = true)

/-- The stores `ws` arm the sampler: overflow interrupt enable and external clock select
go to the control register, flag clear and counter value 8 to the status register. -/
def armsSampler (ws : List Store) : Prop :=
  Store.USICR (_BV USIOIE ||| _BV USICS0) ∈ ws ∧ Store.USISR (_BV USIOIF ||| 8) ∈ ws

/-- The byte the completion handler stores for a raw capture `r`:
`~reverse_byte(r)` converted to `uint8_t`. -/
def decode (r : Nat) : Nat := int_not (reverse_byte r) % 256

/-- The stores `ws` release the data line: the data bit of the direction register is
cleared and the data bit of the port register is set (input with pull-up). -/
def releasesData (ws : List Store) : Prop :=
  (∃ d, Store.DDRB d ∈ ws ∧ d.testBit PIN_DATA = false) ∧
  (∃ p, Store.PORTB p ∈ ws ∧ p.testBit PIN_DATA = true)

/-- State one tick into byte slot 0, with the motor running forward: cursor `(0, 1)`,
data line driven low, Forward and indicator outputs set. -/
def slot0Bit1 : State :=
  { powerOn with bit_cnt := 1, DDRB := 0x1F, PORTB := 0x0A, OCR1B := 2 }

/-- State in the idle part of byte slot 3: cursor `(3, 5)`. -/
def slot3Bit5 : State := { powerOn with byte_cnt := 3, bit_cnt := 5, PORTB := 0x0B }

/-- State with a complete frame latched and not yet consumed. -/
def frameReady : State :=
  { powerOn with byte_cnt := 1, bit_cnt := 10, recvd0 := 0x28, recvd1 := 0x1E,
                 data_received := true, PORTB := 1 }

/-! ## Timer/Counter0 -/

/-- CPU clock frequency in Hz (`F_CPU`). -/
def F_CPU : Nat := 8000000

/-- TCCR0A bit 1 of `avr/io.h`: waveform generation mode bit 1 (clear on compare). -/
def WGM01 : Nat := 1
/-- TCCR0B bit 1 of `avr/io.h`: clock select bit 1. -/
def CS01 : Nat := 1
/-- TIFR bit 3 of `avr/io.h`: output compare flag 0 B. -/
def OCF0B : Nat := 3
/-- TIMSK bit 3 of `avr/io.h`: output compare match B interrupt enable. -/
def OCIE0B : Nat := 3

/-- The Timer/Counter0 registers written by `init_usi_lanc`, with the counter `TCNT0`.
They are kept apart from `State`; stores to them are not traced. -/
structure Timer0 where
  TCCR0A : Nat
  TCCR0B : Nat
  OCR0A : Nat
  OCR0B : Nat
  TIFR : Nat
  TIMSK : Nat
  TCNT0 : Nat
  deriving DecidableEq, Repr

/-- Timer/Counter0 at reset. -/
def timer0Reset : Timer0 :=
  { TCCR0A := 0, TCCR0B := 0, OCR0A := 0, OCR0B := 0, TIFR := 0, TIMSK := 0, TCNT0 := 0 }

/-- Timer set-up of the driver (`init_usi_lanc`). -/
def init_usi_lanc (s : State) (t : Timer0) : State × Timer0 :=
  -- define DI as output
  let s := s.setDDRB ((s.DDRB ||| _BV PIN_DATA) % 256)
  -- timer in CTC mode
  let t := { t with TCCR0A := _BV WGM01 % 256 }
  -- prescaler to /8
  let t := { t with TCCR0B := _BV CS01 % 256 }
  -- shift every 104 us
  let t := { t with OCR0A := (104 - 1) % 256 }
  -- COMPB between successive COMPA
  let t := { t with OCR0B := (104 / 2 - 1) % 256 }
  -- clear output compare flag
  let t := { t with TIFR := _BV OCF0B % 256 }
  -- enable output compare interrupt
  let t := { t with TIMSK := (t.TIMSK ||| _BV OCIE0B) % 256 }
  (s, t)

namespace Timer0

/-- Modelled from the spec: the timer prescaler selected by the clock-select bits of
`TCCR0B` (0 when the timer is stopped); `CS01` alone selects the CPU clock divided by 8. -/
def prescaler (t : Timer0) : Nat :=
  match t.TCCR0B &&& 7 with
  | 1 => 1
  | 2 => 8
  | 3 => 64
  | 4 => 256
  | 5 => 1024
  | _ => 0

/-- Modelled from the spec: one count of the timer. In clear-on-compare mode (`WGM01`)
the counter returns to 0 after the count at which it equals `OCR0A`; otherwise it wraps
at 8 bits. -/
def count (t : Timer0) : Timer0 :=
  if t.TCCR0A &&& _BV WGM01 ≠ 0 ∧ t.TCNT0 = t.OCR0A then { t with TCNT0 := 0 }
  else { t with TCNT0 := (t.TCNT0 + 1) % 256 }

/-- The timer after `n` counts. -/
def after : Nat → Timer0 → Timer0
  | 0, t => t
  | n + 1, t => count (after n t)

/-- Modelled from the spec: the tick handler (compare match B interrupt) fires at the
counts where the counter equals `OCR0B`, when the interrupt is enabled in `TIMSK`. -/
def tickFires (t : Timer0) : Bool :=
  decide (t.TCNT0 = t.OCR0B) && decide (t.TIMSK &&& _BV OCIE0B ≠ 0)

/-- Modelled from the spec: the sampler is clocked (compare match A) at the counts where
the counter equals `OCR0A`. -/
def samplerClocked (t : Timer0) : Bool := decide (t.TCNT0 = t.OCR0A)

/-- Duration of one count in nanoseconds. -/
def countNs (t : Timer0) : Nat := t.prescaler * 1000000000 / F_CPU

/-- The interval between two successive firings of the tick handler is `p` counts. -/
def tickPeriodIs (t : Timer0) (p : Nat) : Prop :=
  ∀ n, (after n t).tickFires = true →
    (after (n + p) t).tickFires = true ∧
    ∀ k, 0 < k → k < p → (after (n + k) t).tickFires = false

end Timer0

/-- Timer/Counter0 as `init_usi_lanc` leaves it after reset. -/
def timer0Init : Timer0 := (init_usi_lanc powerOn timer0Reset).2

/-! ## Sampler hardware and event schedules -/

/-- Modelled from the spec: one clock of the Bit Sampler (Timer0 compare match A). While
an external clock source is selected in `USICR`, the 4-bit counter in the low bits of
`USISR` is incremented; when it overflows with the overflow interrupt enabled, the
completion handler runs, reading `USIBR` as the captured byte. -/
def sampleClock (USIBR : Nat) (s : State) : Option State :=
  if s.USICR &&& _BV USICS0 = 0 then some s
  else
    let cnt := (s.USISR % 16 + 1) % 16
    let s := { s with USISR := s.USISR / 16 * 16 + cnt }
    if cnt = 0 ∧ s.USICR &&& _BV USIOIE ≠ 0 then USI_OVF USIBR s else some s

/-- The events of the system: a tick (compare match B), a sampler clock (compare match A)
during which `USIBR` holds the given capture, and a main-loop iteration. -/
inductive Event where
  | tick
  | clock (USIBR : Nat)
  | poll
  deriving DecidableEq, Repr

/-- The effect of one event. -/
def step : Event → State → Option State
  | Event.tick, s => some (TIM0_COMPB s)
  | Event.clock r, s => sampleClock r s
  | Event.poll, s => some (mainStep s)

/-- The effect of a sequence of events. -/
def exec : List Event → State → Option State
  | [], s => some s
  | e :: es, s => (step e s).bind (exec es)

/-- Ticks and sampler clocks in strict alternation, tick first, for `n` bit periods;
`raw i` is the content of `USIBR` in period `i`. -/
def periods (raw : Nat → Nat) : Nat → List Event
  | 0 => []
  | n + 1 => periods raw n ++ [Event.tick, Event.clock (raw n)]

/-- As `periods`, with a main-loop iteration after every tick and every sampler clock. -/
def polledPeriods (raw : Nat → Nat) : Nat → List Event
  | 0 => []
  | n + 1 => polledPeriods raw n ++ [Event.tick, Event.poll, Event.clock (raw n), Event.poll]

/-- Stores to the sampler registers, to `recvd` and to `data_received`. -/
def Store.isSampler : Store → Bool
  | Store.USICR _ => true
  | Store.USISR _ => true
  | Store.recvd _ _ => true
  | Store.data_received _ => true
  | _ => false

/-- Stores to `recvd[i]`. -/
def Store.isRecvd (i : Nat) : Store → Bool
  | Store.recvd j _ => decide (j = i)
  | _ => false

/-- Stores to the duty register. -/
def Store.isDuty : Store → Bool
  | Store.OCR1B _ => true
  | _ => false

/-- The sampler stores of bit period `k` of a frame in which `USIBR` holds `r`: arming in
periods 1 and 13, completion in periods 8 and 20. -/
def samplerStoresAt (k r : Nat) : List Store :=
  if k = 1 ∨ k = 13 then
    [Store.USICR (_BV USIOIE ||| _BV USICS0), Store.USISR (_BV USIOIF ||| 8)]
  else if k = 8 then [Store.USICR 0, Store.recvd 0 (decode r)]
  else if k = 20 then [Store.USICR 0, Store.recvd 1 (decode r), Store.data_received true]
  else []

/-- The sampler stores of the first `n` bit periods of a frame. -/
def samplerStores (raw : Nat → Nat) : Nat → List Store
  | 0 => []
  | n + 1 => samplerStores raw n ++ samplerStoresAt n (raw n)

/-- A frame boundary: cursor `(0,0)` and sampler disabled. -/
def frameStart (s : State) : Prop := s.byte_cnt = 0 ∧ s.bit_cnt = 0 ∧ s.USICR = 0

instance (s : State) : Decidable (frameStart s) := by unfold frameStart; infer_instance

/-- Relation between the bit period `k` of a frame and the state at its start: the
cursor is at position `k`, and the sampler is enabled exactly in periods 2 to 8 and 14
to 20, with the counter at 8 plus the number of clocks since arming. -/
def phaseInv (k : Nat) (s : State) : Prop :=
  s.byte_cnt = (k / 12) % 16 ∧ s.bit_cnt = k % 12 ∧
  (if 2 ≤ k ∧ k ≤ 8 then s.USICR = (_BV USIOIE ||| _BV USICS0) ∧ s.USISR % 16 = k + 7
   else if 14 ≤ k ∧ k ≤ 20 then s.USICR = (_BV USIOIE ||| _BV USICS0) ∧ s.USISR % 16 = k - 5
   else s.USICR = 0)

/-- Stores that set `data_received`. -/
def Store.isFlagSet : Store → Bool
  | Store.data_received true => true
  | _ => false

/-- The stores of a sampler clock in bit period `k` of a frame. -/
def clockStoresAt (k r : Nat) : List Store :=
  if k = 8 then [Store.USICR 0, Store.recvd 0 (decode r)]
  else if k = 20 then [Store.USICR 0, Store.recvd 1 (decode r), Store.data_received true]
  else []

/-- Relation between the bit period `k` of a frame and the state between its tick and
its sampler clock. -/
def midInv (k : Nat) (u : State) : Prop :=
  u.byte_cnt = ((k + 1) / 12) % 16 ∧ u.bit_cnt = (k + 1) % 12 ∧
  (if 1 ≤ k ∧ k ≤ 8 then u.USICR = (_BV USIOIE ||| _BV USICS0) ∧ u.USISR % 16 = k + 7
   else if 13 ≤ k ∧ k ≤ 20 then u.USICR = (_BV USIOIE ||| _BV USICS0) ∧ u.USISR % 16 = k - 5
   else u.USICR = 0)

/-- The actuator is as at power-on: duty 0, both direction outputs clear, and no store to
the duty register so far. -/
def actuatorIdle (s : State) : Prop :=
  s.OCR1B = 0 ∧ s.PORTB.testBit PIN_REV = false ∧ s.PORTB.testBit PIN_FW = false ∧
  s.trace.countP Store.isDuty = 0

/-- The actuator runs in reverse at full speed, after a single store to the duty
register. -/
def actuatorReverse (s : State) : Prop :=
  s.OCR1B = 255 ∧ s.PORTB.testBit PIN_REV = true ∧ s.PORTB.testBit PIN_FW = false ∧
  s.trace.countP Store.isDuty = 1

/-- Relation between the bit period `k` of the end-to-end frame and the state at its
start: the sampler phase, no frame pending, the move command latched from period 9 to
period 20, and the actuator idle up to period 20 and in reverse afterwards. -/
def frameInv (k : Nat) (s : State) : Prop :=
  phaseInv k s ∧ s.data_received = false ∧ (9 ≤ k → k ≤ 20 → s.recvd0 = 0x28) ∧
  (if k ≤ 20 then actuatorIdle s else actuatorReverse s)

/-- The raw captures of a frame commanding Reverse at full speed: `0xEB` decodes to
`0x28` and `0x87` to `0x1E`. -/
def rawReverse (k : Nat) : Nat := if k < 12 then 0xEB else 0x87

/-- Storing `~v` into an 8-bit object keeps `255 - v`. -/
theorem int_not_mod (v : Nat) (hv : v < 256) : int_not v % 256 = 255 - v := by
  have h : ∀ v < 256, int_not v % 256 = 255 - v := by decide
  exact h v hv

/-- The result of `reverse_byte` fits in eight bits. -/
theorem reverse_byte_lt (x : Nat) : reverse_byte x < 256 := by
  unfold reverse_byte
  exact Nat.mod_lt _ (by decide)

/-! ## Bit reversal -/

/-- C1: `reverse_byte` reverses the order of the eight bits of a byte: bit `i` of the
result is bit `7 - i` of the argument, and the result is again a byte. -/
theorem reverse_byte_testBit (x i : Nat) (hx : x < 256) (hi : i < 8) :
    (reverse_byte x).testBit i = x.testBit (7 - i) ∧ reverse_byte x < 256 := by
  have h : ∀ x < 256, ∀ i < 8, (reverse_byte x).testBit i = x.testBit (7 - i) := by decide
  exact ⟨h x hx i hi, reverse_byte_lt x⟩

theorem reverse_byte_testBit_witness :
    (0x28 < 256 ∧ 2 < 8) ∧
      ((reverse_byte 0x28).testBit 2 = (0x28).testBit (7 - 2) ∧ reverse_byte 0x28 < 256) :=
  ⟨by decide, reverse_byte_testBit 0x28 2 (by decide) (by decide)⟩

/-- C2: `reverse_byte` is self-inverse on bytes. -/
theorem reverse_byte_involutive (b : Nat) (hb : b < 256) :
    reverse_byte (reverse_byte b) = b := by
  have h : ∀ b < 256, reverse_byte (reverse_byte b) = b := by decide
  exact h b hb

theorem reverse_byte_involutive_witness :
    0xEB < 256 ∧ reverse_byte (reverse_byte 0xEB) = 0xEB :=
  ⟨by decide, reverse_byte_involutive 0xEB (by decide)⟩

/-! ## Sampler completion handler -/

/-- C3: with `byte_cnt` in `{0,1}` the completion handler returns, leaves the sampler
disabled, stores the complement of the reversed capture in `recvd[byte_cnt]`, keeps the
other slot and the cursor, and sets `data_received` exactly when `byte_cnt = 1`. -/
theorem USI_OVF_effect (r : Nat) (s : State) (hb : s.byte_cnt < 2) :
    ∃ t, USI_OVF r s = some t ∧ t.USICR = 0 ∧
      t.getRecvd s.byte_cnt = some (255 - reverse_byte r) ∧
      t.getRecvd (1 - s.byte_cnt) = s.getRecvd (1 - s.byte_cnt) ∧
      t.cursor = s.cursor ∧
      t.data_received = (if s.byte_cnt = 1 then true else s.data_received) := by
  have hn := int_not_mod (reverse_byte r) (reverse_byte_lt r)
  obtain ⟨bc, bi, r0, r1, d, p, dd, uc, us, oc, tr⟩ := s
  simp only at hb
  interval_cases bc <;>
    simp [USI_OVF, State.setUSICR, State.setRecvd, State.setDataReceived, State.getRecvd,
      State.cursor, hn, bind, pure]

theorem USI_OVF_effect_witness :
    (ticks 14 powerOn).byte_cnt < 2 ∧
    ∃ t, USI_OVF 0xEB (ticks 14 powerOn) = some t ∧ t.USICR = 0 ∧
      t.getRecvd (ticks 14 powerOn).byte_cnt = some (255 - reverse_byte 0xEB) ∧
      t.getRecvd (1 - (ticks 14 powerOn).byte_cnt)
        = (ticks 14 powerOn).getRecvd (1 - (ticks 14 powerOn).byte_cnt) ∧
      t.cursor = (ticks 14 powerOn).cursor ∧
      t.data_received
        = (if (ticks 14 powerOn).byte_cnt = 1 then true else (ticks 14 powerOn).data_received) :=
  ⟨by decide, USI_OVF_effect 0xEB (ticks 14 powerOn) (by decide)⟩

/-! ## Command interpreter -/

/-- Masking with `0x10` isolates bit 4. -/
theorem and_16_eq (v : Nat) : v &&& 0x10 = if v.testBit 4 then 0x10 else 0 := by
  have key : ∀ i, Nat.testBit 16 i = decide (4 = i) := fun i => by
    have h := @Nat.testBit_two_pow 4 i
    simpa using h
  apply Nat.eq_of_testBit_eq
  intro i
  rw [Nat.testBit_and, key]
  by_cases hi : 4 = i
  · subst hi
    cases hv : v.testBit 4 <;> simp [key]
  · cases hv : v.testBit 4 <;> simp [hi, key]

/-- The speed index is a three-bit value. -/
theorem speed_index_lt (v : Nat) : (v >>> 1) &&& 7 < 8 :=
  Nat.and_lt_two_pow (v >>> 1) (by decide : 7 < 2 ^ 3)

/-- C4: a move command (`recvd[0] = 0x28`) sets the duty register to the speed-table entry
selected by bits 1..3 of `recvd[1]` (an index in range), turns the indicator on and
enables exactly one direction output, Reverse when bit 4 of `recvd[1]` is set and Forward
when it is clear; `(0x28, 0x00)` gives Forward with duty 2 and `(0x28, 0x12)` gives
Reverse with duty 4. -/
theorem control_motor_move (s : State) (h0 : s.recvd0 = 0x28) :
    speeds = [2, 4, 8, 16, 32, 64, 128, 255] ∧
    (s.recvd1 >>> 1) &&& 7 < speeds.length ∧
    speeds[(s.recvd1 >>> 1) &&& 7]? = some (control_motor s).OCR1B ∧
    (control_motor s).PORTB.testBit PIN_LED = true ∧
    (control_motor s).PORTB.testBit PIN_REV = s.recvd1.testBit 4 ∧
    (control_motor s).PORTB.testBit PIN_FW = !s.recvd1.testBit 4 ∧
    (s.recvd1 = 0x00 → (control_motor s).OCR1B = 2 ∧
      (control_motor s).PORTB.testBit PIN_FW = true ∧
      (control_motor s).PORTB.testBit PIN_REV = false) ∧
    (s.recvd1 = 0x12 → (control_motor s).OCR1B = 4 ∧
      (control_motor s).PORTB.testBit PIN_REV = true ∧
      (control_motor s).PORTB.testBit PIN_FW = false) := by
  have hidx := speed_index_lt s.recvd1
  have hduty : (control_motor s).OCR1B = speeds.getD ((s.recvd1 >>> 1) &&& 7) 0 := by
    simp [control_motor, h0, State.setOCR1B, State.setPORTB]
  have hport : (control_motor s).PORTB = if s.recvd1.testBit 4 then 12 else 10 := by
    have h16 := and_16_eq s.recvd1
    cases hv : s.recvd1.testBit 4 <;> rw [hv] at h16 <;>
      simp [control_motor, h0, State.setOCR1B, State.setPORTB, h16] <;> decide
  refine ⟨rfl, hidx, ?_, ?_, ?_, ?_, ?_, ?_⟩
  · rw [hduty]
    generalize (s.recvd1 >>> 1) &&& 7 = i at hidx
    interval_cases i <;> rfl
  · rw [hport]; cases s.recvd1.testBit 4 <;> decide
  · rw [hport]; cases s.recvd1.testBit 4 <;> decide
  · rw [hport]; cases s.recvd1.testBit 4 <;> decide
  · intro h1; rw [hport, hduty, h1]; decide
  · intro h1; rw [hport, hduty, h1]; decide

theorem control_motor_move_witness :
    move12.recvd0 = 0x28 ∧
    (speeds = [2, 4, 8, 16, 32, 64, 128, 255] ∧
    (move12.recvd1 >>> 1) &&& 7 < speeds.length ∧
    speeds[(move12.recvd1 >>> 1) &&& 7]? = some (control_motor move12).OCR1B ∧
    (control_motor move12).PORTB.testBit PIN_LED = true ∧
    (control_motor move12).PORTB.testBit PIN_REV = move12.recvd1.testBit 4 ∧
    (control_motor move12).PORTB.testBit PIN_FW = !move12.recvd1.testBit 4 ∧
    (move12.recvd1 = 0x00 → (control_motor move12).OCR1B = 2 ∧
      (control_motor move12).PORTB.testBit PIN_FW = true ∧
      (control_motor move12).PORTB.testBit PIN_REV = false) ∧
    (move12.recvd1 = 0x12 → (control_motor move12).OCR1B = 4 ∧
      (control_motor move12).PORTB.testBit PIN_REV = true ∧
      (control_motor move12).PORTB.testBit PIN_FW = false)) :=
  ⟨by decide, control_motor_move move12 (by decide)⟩

/-- C5: any command whose first byte is not `0x28` is a stop: duty 0, and the port is
written with Forward, Reverse and indicator all clear, whatever `recvd[1]` holds. -/
theorem control_motor_stop (s : State) (h0 : s.recvd0 ≠ 0x28) :
    (control_motor s).OCR1B = 0 ∧
    writes s (control_motor s) = [Store.OCR1B 0, Store.PORTB 0] ∧
    (control_motor s).PORTB.testBit PIN_FW = false ∧
    (control_motor s).PORTB.testBit PIN_REV = false ∧
    (control_motor s).PORTB.testBit PIN_LED = false ∧
    ∀ v, control_motor { s with recvd1 := v } = { control_motor s with recvd1 := v } := by
  simp [control_motor, h0, State.setOCR1B, State.setPORTB, writes]

theorem control_motor_stop_witness :
    powerOn.recvd0 ≠ 0x28 ∧
    ((control_motor powerOn).OCR1B = 0 ∧
    writes powerOn (control_motor powerOn) = [Store.OCR1B 0, Store.PORTB 0] ∧
    (control_motor powerOn).PORTB.testBit PIN_FW = false ∧
    (control_motor powerOn).PORTB.testBit PIN_REV = false ∧
    (control_motor powerOn).PORTB.testBit PIN_LED = false ∧
    ∀ v, control_motor { powerOn with recvd1 := v }
      = { control_motor powerOn with recvd1 := v }) :=
  ⟨by decide, control_motor_stop powerOn (by decide)⟩

/-- C6 as stated fails: with `(0x28, 0xEE)` latched, bit 4 of `0xEE` is clear, so
`control_motor` leaves the Reverse output clear and enables Forward. -/
theorem control_motor_EE_not_reverse :
    ¬ ((control_motor moveEE).PORTB.testBit PIN_REV = true ∧
       (control_motor moveEE).PORTB.testBit PIN_FW = false ∧
       (control_motor moveEE).OCR1B = 255) := by
  decide

/-- C6 (amended): with `recvd[0] = 0x28` and `recvd[1] = 0xEE`, `control_motor` enables
the Forward output and not Reverse, selects speed index 7 and sets the duty to 255. -/
theorem control_motor_EE (s : State) (h0 : s.recvd0 = 0x28) (h1 : s.recvd1 = 0xEE) :
    (control_motor s).PORTB.testBit PIN_FW = true ∧
    (control_motor s).PORTB.testBit PIN_REV = false ∧
    (control_motor s).PORTB.testBit PIN_LED = true ∧
    (s.recvd1 >>> 1) &&& 7 = 7 ∧
    (control_motor s).OCR1B = 255 := by
  simp [control_motor, h0, h1, State.setOCR1B, State.setPORTB]
  decide

theorem control_motor_EE_witness :
    (moveEE.recvd0 = 0x28 ∧ moveEE.recvd1 = 0xEE) ∧
    ((control_motor moveEE).PORTB.testBit PIN_FW = true ∧
    (control_motor moveEE).PORTB.testBit PIN_REV = false ∧
    (control_motor moveEE).PORTB.testBit PIN_LED = true ∧
    (moveEE.recvd1 >>> 1) &&& 7 = 7 ∧
    (control_motor moveEE).OCR1B = 255) :=
  ⟨by decide, control_motor_EE moveEE (by decide) (by decide)⟩

/-! ## Frame cursor -/

/-- The cursor after one tick, from the cursor before it. -/
theorem TIM0_COMPB_cursor (s : State) :
    (TIM0_COMPB s).byte_cnt =
      (if (s.bit_cnt + 1) % 256 ≥ 12 then ((s.byte_cnt + 1) % 16) % 256 else s.byte_cnt) ∧
    (TIM0_COMPB s).bit_cnt =
      (if (s.bit_cnt + 1) % 256 ≥ 12 then 0 else (s.bit_cnt + 1) % 256) := by
  unfold TIM0_COMPB
  simp only [State.setPORTB, State.setDDRB, State.setUSICR, State.setUSISR]
  split_ifs <;> exact ⟨rfl, rfl⟩

/-- Closed form of the cursor after `n` ticks from power-on. -/
theorem ticks_cursor_closed (n : Nat) :
    (ticks n powerOn).byte_cnt = (n / 12) % 16 ∧ (ticks n powerOn).bit_cnt = n % 12 := by
  induction n with
  | zero => exact ⟨rfl, rfl⟩
  | succ n ih =>
    obtain ⟨hb, hi⟩ := ih
    obtain ⟨h1, h2⟩ := TIM0_COMPB_cursor (ticks n powerOn)
    show (TIM0_COMPB (ticks n powerOn)).byte_cnt = _ ∧ (TIM0_COMPB (ticks n powerOn)).bit_cnt = _
    rw [h1, h2, hb, hi]
    split_ifs <;> omega

/-- C7: from power-on, after `n` ticks the cursor is `((n / 12) mod 16, n mod 12)`;
`byte_cnt` moves, by one modulo 16, exactly on every twelfth tick; the cursor is `(0,0)`
exactly after the multiples of 192 ticks. -/
theorem ticks_cursor (n : Nat) :
    (ticks n powerOn).cursor = ((n / 12) % 16, n % 12) ∧
    (ticks (n + 1) powerOn).byte_cnt =
      (if (n + 1) % 12 = 0 then ((ticks n powerOn).byte_cnt + 1) % 16
       else (ticks n powerOn).byte_cnt) ∧
    (ticks 192 powerOn).cursor = (0, 0) ∧
    ((ticks n powerOn).cursor = (0, 0) ↔ n % 192 = 0) := by
  have h0 := ticks_cursor_closed n
  have h1 := ticks_cursor_closed (n + 1)
  have h2 := ticks_cursor_closed 192
  simp only [State.cursor, Prod.mk.injEq] at h0 h1 h2 ⊢
  refine ⟨h0, ?_, h2, ?_⟩
  · rw [h1.1, h0.1]; split_ifs <;> omega
  · rw [h0.1, h0.2]; omega

/-- Bits of a value truncated to eight bits. -/
theorem testBit_mod_256 (x i : Nat) :
    (x % 256).testBit i = (decide (i < 8) && x.testBit i) := by
  have h := Nat.testBit_mod_two_pow x 8 i
  simpa using h

/-- Within the cursor range, `byte_cnt & 8` tests for the second half of the frame. -/
theorem pause_iff (b : Nat) (hb : b < 16) : b &&& 8 ≠ 0 ↔ 8 ≤ b := by
  have h : ∀ b < 16, (b &&& 8 ≠ 0 ↔ 8 ≤ b) := by decide
  exact h b hb

/-- The data bit is clear after `&= ~_BV(PIN_DATA)`. -/
theorem clear_data_bit (p : Nat) :
    ((p &&& int_not (_BV PIN_DATA)) % 256).testBit PIN_DATA = false := by
  rw [testBit_mod_256, Nat.testBit_and]
  have h : (int_not (_BV PIN_DATA)).testBit PIN_DATA = false := by decide
  rw [h]; simp

/-- The data bit is set after `|= _BV(PIN_DATA)`. -/
theorem set_data_bit (p : Nat) :
    ((p ||| _BV PIN_DATA) % 256).testBit PIN_DATA = true := by
  rw [testBit_mod_256, Nat.testBit_or]
  have h : (_BV PIN_DATA).testBit PIN_DATA = true := by decide
  rw [h]; simp [PIN_DATA, PB0]

/-- The stores of one tick, by case on the cursor the handler reads on entry. -/
theorem TIM0_COMPB_writes (s : State) :
    writes s (TIM0_COMPB s) =
      if s.byte_cnt &&& 8 ≠ 0 then []
      else if s.bit_cnt = 0 then
        [Store.PORTB ((s.PORTB &&& int_not (_BV PIN_DATA)) % 256),
         Store.DDRB ((s.DDRB ||| _BV PIN_DATA) % 256)]
      else if s.bit_cnt = 1 then
        [Store.DDRB ((s.DDRB &&& int_not (_BV PIN_DATA)) % 256),
         Store.PORTB ((s.PORTB ||| _BV PIN_DATA) % 256)] ++
        (if s.byte_cnt < 2 then
          [Store.USICR ((_BV USIOIE ||| _BV USICS0) % 256),
           Store.USISR ((_BV USIOIF ||| 8) % 256)]
         else [])
      else [] := by
  unfold TIM0_COMPB writes
  simp only [State.setPORTB, State.setDDRB, State.setUSICR, State.setUSISR]
  split_ifs <;> simp

/-- The port, direction and sampler registers after one tick. -/
theorem TIM0_COMPB_regs (s : State) :
    (TIM0_COMPB s).PORTB =
      (if s.byte_cnt &&& 8 ≠ 0 then s.PORTB
       else if s.bit_cnt = 0 then (s.PORTB &&& int_not (_BV PIN_DATA)) % 256
       else if s.bit_cnt = 1 then (s.PORTB ||| _BV PIN_DATA) % 256
       else s.PORTB) ∧
    (TIM0_COMPB s).DDRB =
      (if s.byte_cnt &&& 8 ≠ 0 then s.DDRB
       else if s.bit_cnt = 0 then (s.DDRB ||| _BV PIN_DATA) % 256
       else if s.bit_cnt = 1 then (s.DDRB &&& int_not (_BV PIN_DATA)) % 256
       else s.DDRB) ∧
    (TIM0_COMPB s).USICR =
      (if s.byte_cnt &&& 8 = 0 ∧ s.bit_cnt = 1 ∧ s.byte_cnt < 2
       then (_BV USIOIE ||| _BV USICS0) % 256 else s.USICR) ∧
    (TIM0_COMPB s).USISR =
      (if s.byte_cnt &&& 8 = 0 ∧ s.bit_cnt = 1 ∧ s.byte_cnt < 2
       then (_BV USIOIF ||| 8) % 256 else s.USISR) := by
  unfold TIM0_COMPB
  simp only [State.setPORTB, State.setDDRB, State.setUSICR, State.setUSISR]
  split_ifs <;> simp_all

/-- C9: in a state satisfying the cursor range predicate, a tick drives the data line
low exactly when the cursor it reads has `bit_cnt = 0` and `byte_cnt < 8`; it then clears
the data bit of `PORTB` and sets the data bit of `DDRB`, and a tick with `byte_cnt` in
`[8,15]` performs no store at all. -/
theorem start_bit_gating (s : State) (h : cursorInv s) :
    (drivesDataLow (writes s (TIM0_COMPB s)) ↔ s.bit_cnt = 0 ∧ s.byte_cnt < 8) ∧
    (s.bit_cnt = 0 ∧ s.byte_cnt < 8 →
      writes s (TIM0_COMPB s) =
        [Store.PORTB ((s.PORTB &&& int_not (_BV PIN_DATA)) % 256),
         Store.DDRB ((s.DDRB ||| _BV PIN_DATA) % 256)] ∧
      (TIM0_COMPB s).PORTB.testBit PIN_DATA = false ∧
      (TIM0_COMPB s).DDRB.testBit PIN_DATA = true) ∧
    (8 ≤ s.byte_cnt → writes s (TIM0_COMPB s) = []) := by
  have hp := pause_iff s.byte_cnt h.2
  have hw := TIM0_COMPB_writes s
  obtain ⟨hP, hD, _, _⟩ := TIM0_COMPB_regs s
  have hc := clear_data_bit
  have hs := set_data_bit
  by_cases hpause : s.byte_cnt &&& 8 ≠ 0
  · have h8 : 8 ≤ s.byte_cnt := hp.1 hpause
    rw [if_pos hpause] at hw
    refine ⟨?_, ?_, fun _ => hw⟩
    · rw [hw]
      constructor
      · rintro ⟨⟨p, hm, _⟩, _⟩
        simp at hm
      · rintro ⟨_, hlt⟩
        omega
    · rintro ⟨_, hlt⟩
      omega
  · have h8 : s.byte_cnt < 8 := by
      by_contra hge
      exact hpause (hp.2 (by omega))
    rw [if_neg hpause] at hw hP hD
    refine ⟨?_, ?_, fun hge => by omega⟩
    · by_cases hb0 : s.bit_cnt = 0
      · rw [if_pos hb0] at hw
        rw [hw]
        constructor
        · intro _
          exact ⟨hb0, h8⟩
        · intro _
          exact ⟨⟨_, by simp, hc s.PORTB⟩, ⟨_, by simp, hs s.DDRB⟩⟩
      · rw [if_neg hb0] at hw
        constructor
        · rintro ⟨_, ⟨d, hm, hd⟩⟩
          exfalso
          rw [hw] at hm
          by_cases hb1 : s.bit_cnt = 1
          · rw [if_pos hb1] at hm
            have hd2 : d = (s.DDRB &&& int_not (_BV PIN_DATA)) % 256 := by
              split_ifs at hm <;> simpa using hm
            rw [hd2, hc] at hd
            exact Bool.noConfusion hd
          · rw [if_neg hb1] at hm
            simp at hm
        · rintro ⟨h0, _⟩
          exact absurd h0 hb0
    · rintro ⟨hb0, _⟩
      rw [if_pos hb0] at hw hP hD
      exact ⟨hw, by rw [hP]; exact hc _, by rw [hD]; exact hs _⟩

theorem start_bit_gating_witness :
    cursorInv powerOn ∧
    ((drivesDataLow (writes powerOn (TIM0_COMPB powerOn)) ↔
        powerOn.bit_cnt = 0 ∧ powerOn.byte_cnt < 8) ∧
    (powerOn.bit_cnt = 0 ∧ powerOn.byte_cnt < 8 →
      writes powerOn (TIM0_COMPB powerOn) =
        [Store.PORTB ((powerOn.PORTB &&& int_not (_BV PIN_DATA)) % 256),
         Store.DDRB ((powerOn.DDRB ||| _BV PIN_DATA) % 256)] ∧
      (TIM0_COMPB powerOn).PORTB.testBit PIN_DATA = false ∧
      (TIM0_COMPB powerOn).DDRB.testBit PIN_DATA = true) ∧
    (8 ≤ powerOn.byte_cnt → writes powerOn (TIM0_COMPB powerOn) = [])) :=
  ⟨by decide, start_bit_gating powerOn (by decide)⟩

/-- C10: a tick arms the sampler exactly when the cursor it reads has `bit_cnt = 1` and
`byte_cnt` in `{0,1}` (for every state, in particular under the cursor range predicate):
it then writes interrupt enable + external clock select to `USICR` and flag clear +
counter value 8 to `USISR`; every other tick stores to neither register and leaves both
unchanged. -/
theorem sampler_arming (s : State) :
    (armsSampler (writes s (TIM0_COMPB s)) ↔ s.bit_cnt = 1 ∧ s.byte_cnt < 2) ∧
    (s.bit_cnt = 1 ∧ s.byte_cnt < 2 →
      (TIM0_COMPB s).USICR = _BV USIOIE ||| _BV USICS0 ∧
      (TIM0_COMPB s).USISR = _BV USIOIF ||| 8 ∧
      (TIM0_COMPB s).USISR &&& 0x0F = 8) ∧
    (¬ (s.bit_cnt = 1 ∧ s.byte_cnt < 2) →
      (TIM0_COMPB s).USICR = s.USICR ∧ (TIM0_COMPB s).USISR = s.USISR ∧
      ∀ v, Store.USICR v ∉ writes s (TIM0_COMPB s) ∧
        Store.USISR v ∉ writes s (TIM0_COMPB s)) := by
  have hw := TIM0_COMPB_writes s
  obtain ⟨_, _, hC, hS⟩ := TIM0_COMPB_regs s
  have hlow : s.byte_cnt < 2 → s.byte_cnt &&& 8 = 0 := by
    intro hlt
    have h2 : ∀ b < 2, b &&& 8 = 0 := by decide
    exact h2 _ hlt
  have e1 : (_BV USIOIE ||| _BV USICS0) % 256 = _BV USIOIE ||| _BV USICS0 := by decide
  have e2 : (_BV USIOIF ||| 8) % 256 = _BV USIOIF ||| 8 := by decide
  have e3 : (_BV USIOIF ||| 8) &&& 0x0F = 8 := by decide
  rw [e1] at hw hC
  rw [e2] at hw hS
  by_cases hg : s.bit_cnt = 1 ∧ s.byte_cnt < 2
  · obtain ⟨hb1, hlt⟩ := hg
    have hz := hlow hlt
    have hcond : s.byte_cnt &&& 8 = 0 ∧ s.bit_cnt = 1 ∧ s.byte_cnt < 2 := ⟨hz, hb1, hlt⟩
    have hb0 : ¬ s.bit_cnt = 0 := by omega
    rw [if_pos hcond] at hC hS
    rw [if_neg (by simp [hz]), if_neg hb0, if_pos hb1, if_pos hlt] at hw
    refine ⟨⟨fun _ => ⟨hb1, hlt⟩, fun _ => ?_⟩, fun _ => ⟨hC, hS, by rw [hS, e3]⟩,
      fun hn => absurd ⟨hb1, hlt⟩ hn⟩
    rw [hw]
    exact ⟨by simp, by simp⟩
  · have hcond : ¬ (s.byte_cnt &&& 8 = 0 ∧ s.bit_cnt = 1 ∧ s.byte_cnt < 2) :=
      fun hc => hg ⟨hc.2.1, hc.2.2⟩
    rw [if_neg hcond] at hC hS
    have hno : ∀ v, Store.USICR v ∉ writes s (TIM0_COMPB s) ∧
        Store.USISR v ∉ writes s (TIM0_COMPB s) := by
      intro v
      rw [hw]
      split_ifs <;> simp_all
    refine ⟨⟨fun ha => absurd ha.1 (hno _).1, fun hh => absurd hh hg⟩,
      fun hh => absurd hh hg, fun _ => ⟨hC, hS, hno⟩⟩

theorem sampler_arming_witness :
    (armsSampler (writes slot1Bit1 (TIM0_COMPB slot1Bit1)) ↔
        slot1Bit1.bit_cnt = 1 ∧ slot1Bit1.byte_cnt < 2) ∧
    (slot1Bit1.bit_cnt = 1 ∧ slot1Bit1.byte_cnt < 2 →
      (TIM0_COMPB slot1Bit1).USICR = _BV USIOIE ||| _BV USICS0 ∧
      (TIM0_COMPB slot1Bit1).USISR = _BV USIOIF ||| 8 ∧
      (TIM0_COMPB slot1Bit1).USISR &&& 0x0F = 8) ∧
    (¬ (slot1Bit1.bit_cnt = 1 ∧ slot1Bit1.byte_cnt < 2) →
      (TIM0_COMPB slot1Bit1).USICR = slot1Bit1.USICR ∧
      (TIM0_COMPB slot1Bit1).USISR = slot1Bit1.USISR ∧
      ∀ v, Store.USICR v ∉ writes slot1Bit1 (TIM0_COMPB slot1Bit1) ∧
        Store.USISR v ∉ writes slot1Bit1 (TIM0_COMPB slot1Bit1)) :=
  sampler_arming slot1Bit1

/-! ## Line release and idle ticks -/

/-- In the first half of the frame `byte_cnt & 8` is zero. -/
theorem not_pause_of_lt (b : Nat) (hb : b < 8) : ¬ (b &&& 8 ≠ 0) := by
  have h : ∀ b < 8, b &&& 8 = 0 := by decide
  simp [h b hb]

/-- Bits other than the data bit survive `&= ~_BV(PIN_DATA)` on an 8-bit register. -/
theorem clear_data_other (p i : Nat) (hp : p < 256) (hi : i ≠ PIN_DATA) :
    ((p &&& int_not (_BV PIN_DATA)) % 256).testBit i = p.testBit i := by
  rw [testBit_mod_256, Nat.testBit_and]
  by_cases h8 : i < 8
  · have hm : ∀ j < 8, j ≠ PIN_DATA → (int_not (_BV PIN_DATA)).testBit j = true := by decide
    rw [hm i h8 hi]
    simp [h8]
  · have hlt : p < 2 ^ i :=
      lt_of_lt_of_le hp (by
        have : (256 : Nat) = 2 ^ 8 := by norm_num
        rw [this]
        exact Nat.pow_le_pow_right (by decide) (by omega))
    rw [Nat.testBit_lt_two_pow hlt]
    simp

/-- Bits other than the data bit survive `|= _BV(PIN_DATA)` on an 8-bit register. -/
theorem set_data_other (p i : Nat) (hp : p < 256) (hi : i ≠ PIN_DATA) :
    ((p ||| _BV PIN_DATA) % 256).testBit i = p.testBit i := by
  rw [testBit_mod_256, Nat.testBit_or]
  have hb : (_BV PIN_DATA).testBit i = false := by
    have h1 : _BV PIN_DATA = 2 ^ 0 := by decide
    rw [h1, Nat.testBit_two_pow]
    simp only [PIN_DATA, PB0] at hi
    simp
    omega
  rw [hb]
  by_cases h8 : i < 8
  · simp [h8]
  · have hlt : p < 2 ^ i :=
      lt_of_lt_of_le hp (by
        have : (256 : Nat) = 2 ^ 8 := by norm_num
        rw [this]
        exact Nat.pow_le_pow_right (by decide) (by omega))
    rw [Nat.testBit_lt_two_pow hlt]
    simp

/-- C11: a tick entered with `byte_cnt < 8` and `bit_cnt = 1` leaves the data pin an
input with its pull-up enabled and keeps every other bit of `DDRB` and `PORTB`; a start
bit asserted by the tick entered with `bit_cnt = 0` is released by the very next tick. -/
theorem line_release (s : State) (hw : s.wf) (hb : s.byte_cnt < 8) (h1 : s.bit_cnt = 1) :
    (TIM0_COMPB s).DDRB.testBit PIN_DATA = false ∧
    (TIM0_COMPB s).PORTB.testBit PIN_DATA = true ∧
    (∀ i, i ≠ PIN_DATA →
      (TIM0_COMPB s).DDRB.testBit i = s.DDRB.testBit i ∧
      (TIM0_COMPB s).PORTB.testBit i = s.PORTB.testBit i) ∧
    (∀ u : State, u.byte_cnt < 8 → u.bit_cnt = 0 →
      ((TIM0_COMPB u).DDRB.testBit PIN_DATA = true ∧
       (TIM0_COMPB u).PORTB.testBit PIN_DATA = false) ∧
      ((TIM0_COMPB (TIM0_COMPB u)).DDRB.testBit PIN_DATA = false ∧
       (TIM0_COMPB (TIM0_COMPB u)).PORTB.testBit PIN_DATA = true)) := by
  have rel : ∀ v : State, v.byte_cnt < 8 → v.bit_cnt = 1 →
      (TIM0_COMPB v).PORTB = (v.PORTB ||| _BV PIN_DATA) % 256 ∧
      (TIM0_COMPB v).DDRB = (v.DDRB &&& int_not (_BV PIN_DATA)) % 256 := by
    intro v hv hv1
    obtain ⟨hP, hD, _, _⟩ := TIM0_COMPB_regs v
    have h0 : ¬ v.bit_cnt = 0 := by omega
    rw [if_neg (not_pause_of_lt _ hv), if_neg h0, if_pos hv1] at hP hD
    exact ⟨hP, hD⟩
  obtain ⟨hP, hD⟩ := rel s hb h1
  obtain ⟨_, _, _, _, hp, hd, _⟩ := hw
  refine ⟨by rw [hD]; exact clear_data_bit _, by rw [hP]; exact set_data_bit _, ?_, ?_⟩
  · intro i hi
    rw [hD, hP]
    exact ⟨clear_data_other _ _ hd hi, set_data_other _ _ hp hi⟩
  · intro u hu hu0
    obtain ⟨hP0, hD0, _, _⟩ := TIM0_COMPB_regs u
    obtain ⟨hc1, hc2⟩ := TIM0_COMPB_cursor u
    rw [if_neg (not_pause_of_lt _ hu), if_pos hu0] at hP0 hD0
    have hbit : (TIM0_COMPB u).bit_cnt = 1 := by rw [hc2, hu0]; decide
    have hbyte : (TIM0_COMPB u).byte_cnt < 8 := by
      rw [hc1, hu0]; simpa using hu
    obtain ⟨hP1, hD1⟩ := rel (TIM0_COMPB u) hbyte hbit
    refine ⟨⟨by rw [hD0]; exact set_data_bit _, by rw [hP0]; exact clear_data_bit _⟩,
      ⟨by rw [hD1]; exact clear_data_bit _, by rw [hP1]; exact set_data_bit _⟩⟩

theorem line_release_witness :
    (slot0Bit1.wf ∧ slot0Bit1.byte_cnt < 8 ∧ slot0Bit1.bit_cnt = 1) ∧
    ((TIM0_COMPB slot0Bit1).DDRB.testBit PIN_DATA = false ∧
    (TIM0_COMPB slot0Bit1).PORTB.testBit PIN_DATA = true ∧
    (∀ i, i ≠ PIN_DATA →
      (TIM0_COMPB slot0Bit1).DDRB.testBit i = slot0Bit1.DDRB.testBit i ∧
      (TIM0_COMPB slot0Bit1).PORTB.testBit i = slot0Bit1.PORTB.testBit i) ∧
    (∀ u : State, u.byte_cnt < 8 → u.bit_cnt = 0 →
      ((TIM0_COMPB u).DDRB.testBit PIN_DATA = true ∧
       (TIM0_COMPB u).PORTB.testBit PIN_DATA = false) ∧
      ((TIM0_COMPB (TIM0_COMPB u)).DDRB.testBit PIN_DATA = false ∧
       (TIM0_COMPB (TIM0_COMPB u)).PORTB.testBit PIN_DATA = true))) :=
  ⟨by decide, line_release slot0Bit1 (by decide) (by decide) (by decide)⟩

/-- Bits 1 to 7 of the port survive both data-bit updates of the tick handler. -/
theorem tick_port_keeps (u : State) (i : Nat) (h1 : 1 ≤ i) (h8 : i < 8) :
    (TIM0_COMPB u).PORTB.testBit i = u.PORTB.testBit i := by
  obtain ⟨hP, _, _, _⟩ := TIM0_COMPB_regs u
  have hm : ∀ j < 8, 1 ≤ j → (int_not (_BV PIN_DATA)).testBit j = true ∧
      (_BV PIN_DATA).testBit j = false := by decide
  obtain ⟨hm1, hm2⟩ := hm i h8 h1
  rw [hP]
  split_ifs
  · rfl
  · rw [testBit_mod_256, Nat.testBit_and, hm1]; simp [h8]
  · rw [testBit_mod_256, Nat.testBit_or, hm2]; simp [h8]
  · rfl

/-- The tick handler never touches `recvd`, `data_received` or the duty register. -/
theorem tick_keeps_data (u : State) :
    (TIM0_COMPB u).recvd0 = u.recvd0 ∧ (TIM0_COMPB u).recvd1 = u.recvd1 ∧
    (TIM0_COMPB u).data_received = u.data_received ∧ (TIM0_COMPB u).OCR1B = u.OCR1B := by
  unfold TIM0_COMPB
  simp only [State.setPORTB, State.setDDRB, State.setUSICR, State.setUSISR]
  split_ifs <;> exact ⟨rfl, rfl, rfl, rfl⟩

/-- C12: under the cursor range predicate, a tick entered with `bit_cnt ≥ 2` or
`byte_cnt ≥ 8` performs no store and changes nothing but the cursor; and no tick at all
changes `recvd`, `data_received`, the duty register or bits 1 to 7 of the port, among
them the Forward, Reverse and indicator outputs. -/
theorem tick_no_action (s : State) (h : cursorInv s)
    (hc : 2 ≤ s.bit_cnt ∨ 8 ≤ s.byte_cnt) :
    TIM0_COMPB s =
      { s with byte_cnt := (TIM0_COMPB s).byte_cnt, bit_cnt := (TIM0_COMPB s).bit_cnt } ∧
    writes s (TIM0_COMPB s) = [] ∧
    (∀ u : State,
      (TIM0_COMPB u).recvd0 = u.recvd0 ∧ (TIM0_COMPB u).recvd1 = u.recvd1 ∧
      (TIM0_COMPB u).data_received = u.data_received ∧ (TIM0_COMPB u).OCR1B = u.OCR1B ∧
      (TIM0_COMPB u).PORTB.testBit PIN_FW = u.PORTB.testBit PIN_FW ∧
      (TIM0_COMPB u).PORTB.testBit PIN_REV = u.PORTB.testBit PIN_REV ∧
      (TIM0_COMPB u).PORTB.testBit PIN_LED = u.PORTB.testBit PIN_LED ∧
      ∀ i, 1 ≤ i → i < 8 → (TIM0_COMPB u).PORTB.testBit i = u.PORTB.testBit i) := by
  have hp := pause_iff s.byte_cnt h.2
  refine ⟨?_, ?_, ?_⟩
  · unfold TIM0_COMPB
    simp only [State.setPORTB, State.setDDRB, State.setUSICR, State.setUSISR]
    by_cases hpause : s.byte_cnt &&& 8 ≠ 0
    · rw [if_pos hpause]
      split_ifs <;> rfl
    · have h8 : s.byte_cnt < 8 := by
        by_contra hge
        exact hpause (hp.2 (by omega))
      have h0 : ¬ s.bit_cnt = 0 := by omega
      have h1 : ¬ s.bit_cnt = 1 := by omega
      rw [if_neg hpause, if_neg h0, if_neg h1]
      split_ifs <;> rfl
  · rw [TIM0_COMPB_writes]
    by_cases hpause : s.byte_cnt &&& 8 ≠ 0
    · rw [if_pos hpause]
    · have h8 : s.byte_cnt < 8 := by
        by_contra hge
        exact hpause (hp.2 (by omega))
      have h0 : ¬ s.bit_cnt = 0 := by omega
      have h1 : ¬ s.bit_cnt = 1 := by omega
      rw [if_neg hpause, if_neg h0, if_neg h1]
  · intro u
    obtain ⟨a, b, c, d⟩ := tick_keeps_data u
    exact ⟨a, b, c, d, tick_port_keeps u _ (by decide) (by decide),
      tick_port_keeps u _ (by decide) (by decide),
      tick_port_keeps u _ (by decide) (by decide), tick_port_keeps u⟩

theorem tick_no_action_witness :
    (cursorInv slot3Bit5 ∧ (2 ≤ slot3Bit5.bit_cnt ∨ 8 ≤ slot3Bit5.byte_cnt)) ∧
    (TIM0_COMPB slot3Bit5 =
      { slot3Bit5 with byte_cnt := (TIM0_COMPB slot3Bit5).byte_cnt,
                       bit_cnt := (TIM0_COMPB slot3Bit5).bit_cnt } ∧
    writes slot3Bit5 (TIM0_COMPB slot3Bit5) = [] ∧
    (∀ u : State,
      (TIM0_COMPB u).recvd0 = u.recvd0 ∧ (TIM0_COMPB u).recvd1 = u.recvd1 ∧
      (TIM0_COMPB u).data_received = u.data_received ∧ (TIM0_COMPB u).OCR1B = u.OCR1B ∧
      (TIM0_COMPB u).PORTB.testBit PIN_FW = u.PORTB.testBit PIN_FW ∧
      (TIM0_COMPB u).PORTB.testBit PIN_REV = u.PORTB.testBit PIN_REV ∧
      (TIM0_COMPB u).PORTB.testBit PIN_LED = u.PORTB.testBit PIN_LED ∧
      ∀ i, 1 ≤ i → i < 8 → (TIM0_COMPB u).PORTB.testBit i = u.PORTB.testBit i)) :=
  ⟨by decide, tick_no_action slot3Bit5 (by decide) (by decide)⟩

/-! ## Main loop -/

/-- C13: a main-loop iteration always ends with `data_received` false; running it a
second time changes nothing; and when `data_received` is already false it performs no
store and returns the state unchanged. -/
theorem mainStep_idempotent (s : State) :
    (mainStep s).data_received = false ∧
    mainStep (mainStep s) = mainStep s ∧
    writes (mainStep s) (mainStep (mainStep s)) = [] ∧
    (∀ u : State, u.data_received = false → mainStep u = u ∧ writes u (mainStep u) = []) := by
  have idle : ∀ u : State, u.data_received = false →
      mainStep u = u ∧ writes u (mainStep u) = [] := by
    intro u hu
    have e : mainStep u = u := by simp [mainStep, hu]
    rw [e]
    exact ⟨rfl, by simp [writes]⟩
  have hfalse : (mainStep s).data_received = false := by
    unfold mainStep
    cases hd : s.data_received
    · simpa using hd
    · simp [State.setDataReceived]
  exact ⟨hfalse, (idle _ hfalse).1, (idle _ hfalse).2, idle⟩

theorem mainStep_idempotent_witness :
    (mainStep frameReady).data_received = false ∧
    mainStep (mainStep frameReady) = mainStep frameReady ∧
    writes (mainStep frameReady) (mainStep (mainStep frameReady)) = [] ∧
    (∀ u : State, u.data_received = false → mainStep u = u ∧ writes u (mainStep u) = []) :=
  mainStep_idempotent frameReady

/-! ## Speed table -/

/-- The duty written by `control_motor`, by command class. -/
theorem control_motor_duty (s : State) :
    (control_motor s).OCR1B =
      if s.recvd0 = 0x28 then speeds.getD ((s.recvd1 >>> 1) &&& 7) 0 else 0 := by
  unfold control_motor
  simp only [State.setPORTB, State.setOCR1B]
  split_ifs <;> rfl

/-- The speed table is strictly increasing and has no zero entry. -/
theorem speeds_strict (i j : Nat) (hij : i < j) (hj : j < 8) :
    speeds.getD i 0 < speeds.getD j 0 ∧ 0 < speeds.getD i 0 := by
  have h : ∀ j < 8, ∀ i < j, speeds.getD i 0 < speeds.getD j 0 ∧ 0 < speeds.getD i 0 := by
    decide
  exact h j hj i hij

/-- C15: the speed table is strictly increasing, from 2 at index 0 to 255 at index 7, so
for move commands a larger speed index gives a strictly larger duty; and the duty is 0
after `control_motor` exactly for stop commands. -/
theorem speed_monotone (s t : State) (hs : s.recvd0 = 0x28) (ht : t.recvd0 = 0x28)
    (hlt : (s.recvd1 >>> 1) &&& 7 < (t.recvd1 >>> 1) &&& 7) :
    (∀ i j, i < j → j < 8 → speeds.getD i 0 < speeds.getD j 0) ∧
    speeds.getD 0 0 = 2 ∧ speeds.getD 7 0 = 255 ∧
    (control_motor s).OCR1B < (control_motor t).OCR1B ∧
    2 ≤ (control_motor s).OCR1B ∧ (control_motor t).OCR1B ≤ 255 ∧
    (∀ u : State, (control_motor u).OCR1B = 0 ↔ u.recvd0 ≠ 0x28) := by
  have hrange : ∀ k < 8, 2 ≤ speeds.getD k 0 ∧ speeds.getD k 0 ≤ 255 := by decide
  refine ⟨fun i j hij hj => (speeds_strict i j hij hj).1, rfl, rfl, ?_, ?_, ?_, ?_⟩
  · rw [control_motor_duty, control_motor_duty, if_pos hs, if_pos ht]
    exact (speeds_strict _ _ hlt (speed_index_lt _)).1
  · rw [control_motor_duty, if_pos hs]
    exact (hrange _ (speed_index_lt _)).1
  · rw [control_motor_duty, if_pos ht]
    exact (hrange _ (speed_index_lt _)).2
  · intro u
    rw [control_motor_duty]
    by_cases hu : u.recvd0 = 0x28
    · rw [if_pos hu]
      have := (hrange _ (speed_index_lt u.recvd1)).1
      constructor
      · intro h0; omega
      · intro hne; exact absurd hu hne
    · rw [if_neg hu]
      exact ⟨fun _ => hu, fun _ => rfl⟩

theorem speed_monotone_witness :
    (move12.recvd0 = 0x28 ∧ frameReady.recvd0 = 0x28 ∧
      (move12.recvd1 >>> 1) &&& 7 < (frameReady.recvd1 >>> 1) &&& 7) ∧
    ((∀ i j, i < j → j < 8 → speeds.getD i 0 < speeds.getD j 0) ∧
    speeds.getD 0 0 = 2 ∧ speeds.getD 7 0 = 255 ∧
    (control_motor move12).OCR1B < (control_motor frameReady).OCR1B ∧
    2 ≤ (control_motor move12).OCR1B ∧ (control_motor frameReady).OCR1B ≤ 255 ∧
    (∀ u : State, (control_motor u).OCR1B = 0 ↔ u.recvd0 ≠ 0x28)) :=
  ⟨by decide, speed_monotone move12 frameReady (by decide) (by decide) (by decide)⟩

/-! ## Decode transform -/

/-- The decoded byte fits in eight bits. -/
theorem decode_lt (x : Nat) : decode x < 256 := by
  unfold decode
  exact Nat.mod_lt _ (by decide)

/-- Decoding twice gives the byte back. -/
theorem decode_decode (x : Nat) (hx : x < 256) : decode (decode x) = x := by
  have h : ∀ x < 256, decode (decode x) = x := by decide
  exact h x hx

/-- C20: on bytes, complementing and reversing commute, the stored-byte transform
`decode` is its own inverse, and so a logical byte `b` is produced by exactly one raw
capture, `decode b`; `decode` is the value the completion handler stores. -/
theorem decode_bijective (x : Nat) (hx : x < 256) :
    int_not (reverse_byte x) % 256 = reverse_byte (int_not x % 256) ∧
    decode (decode x) = x ∧
    (∀ b, b < 256 → (decode x = b ↔ x = decode b)) ∧
    (∀ s t : State, USI_OVF x s = some t → t.getRecvd s.byte_cnt = some (decode x)) := by
  have hcomm : ∀ x < 256, int_not (reverse_byte x) % 256 = reverse_byte (int_not x % 256) := by
    decide
  refine ⟨hcomm x hx, decode_decode x hx, ?_, ?_⟩
  · intro b hb
    constructor
    · intro h
      rw [← h, decode_decode x hx]
    · intro h
      rw [h, decode_decode b hb]
  · intro s t h
    obtain ⟨bc, bi, r0, r1, d, p, dd, uc, us, oc, tr⟩ := s
    match bc with
    | 0 =>
      simp [USI_OVF, State.setUSICR, State.setRecvd, State.setDataReceived, bind, pure] at h
      subst h; simp [State.getRecvd, decode]
    | 1 =>
      simp [USI_OVF, State.setUSICR, State.setRecvd, State.setDataReceived, bind, pure] at h
      subst h; simp [State.getRecvd, decode, State.setDataReceived]
    | k + 2 =>
      simp [USI_OVF, State.setUSICR, State.setRecvd, bind] at h

theorem decode_bijective_witness :
    0xEB < 256 ∧
    (int_not (reverse_byte 0xEB) % 256 = reverse_byte (int_not 0xEB % 256) ∧
    decode (decode 0xEB) = 0xEB ∧
    (∀ b, b < 256 → (decode 0xEB = b ↔ 0xEB = decode b)) ∧
    (∀ s t : State, USI_OVF 0xEB s = some t → t.getRecvd s.byte_cnt = some (decode 0xEB))) :=
  ⟨by decide, decode_bijective 0xEB (by decide)⟩

/-! ## Tick period -/

/-- The configured timer counts modulo 104. -/
theorem timer0_after (n : Nat) :
    Timer0.after n timer0Init = { timer0Init with TCNT0 := n % 104 } := by
  induction n with
  | zero => rfl
  | succ n ih =>
    show Timer0.count (Timer0.after n timer0Init) = _
    rw [ih]
    have hlt : n % 104 < 104 := Nat.mod_lt _ (by decide)
    by_cases h : n % 104 = 103
    · have e : (n + 1) % 104 = 0 := by omega
      rw [e, h]; rfl
    · have e : (n + 1) % 104 = n % 104 + 1 := by omega
      have e2 : (n % 104 + 1) % 256 = n % 104 + 1 := by omega
      rw [e]
      simp only [Timer0.count]
      have hc : ¬ ((timer0Init.TCCR0A &&& _BV WGM01 ≠ 0) ∧ n % 104 = timer0Init.OCR0A) := by
        rintro ⟨_, h2⟩
        exact h (by rw [h2]; rfl)
      rw [if_neg hc, e2]

/-- The tick handler fires at the counts congruent to 51 modulo 104. -/
theorem timer0_tick_iff (n : Nat) :
    (Timer0.after n timer0Init).tickFires = true ↔ n % 104 = 51 := by
  rw [timer0_after]
  have h1 : timer0Init.OCR0B = 51 := rfl
  have h2 : timer0Init.TIMSK &&& _BV OCIE0B ≠ 0 := by decide
  simp [Timer0.tickFires, h1, h2]

/-- C16 as stated fails: after the first firing of the tick handler, at count 51, the
handler does not fire 52 counts (52 microseconds) later. -/
theorem tick_period_not_52 :
    ¬ (timer0Init.countNs = 1000 → Timer0.tickPeriodIs timer0Init 52) := by
  intro h
  have hp := h (by decide) 51 (by decide)
  exact absurd hp.1 (by decide)

/-- C16 (amended): with the configuration written by `init_usi_lanc` one timer count
lasts 1 microsecond, the tick handler fires every 104 counts, that is every 104
microseconds, the full bit period, and the sampler is clocked 52 counts after each
tick. -/
theorem tick_period :
    timer0Init.countNs = 1000 ∧
    Timer0.tickPeriodIs timer0Init 104 ∧
    104 * timer0Init.countNs = 104000 ∧
    (∀ n, (Timer0.after n timer0Init).tickFires = true →
      (Timer0.after (n + 52) timer0Init).samplerClocked = true) := by
  refine ⟨by decide, ?_, by decide, ?_⟩
  · intro n hn
    rw [timer0_tick_iff] at hn
    refine ⟨by rw [timer0_tick_iff]; omega, fun k hk0 hk => ?_⟩
    have hne : ¬ ((n + k) % 104 = 51) := by omega
    rw [← timer0_tick_iff] at hne
    simpa using hne
  · intro n hn
    rw [timer0_tick_iff] at hn
    rw [timer0_after]
    have h1 : timer0Init.OCR0A = 103 := rfl
    have e : (n + 52) % 104 = 103 := by omega
    simp [Timer0.samplerClocked, h1, e]

/-! ## Order of action and cursor advance -/

/-- C17 as stated fails: the first tick after power-on asserts the start bit and returns
with `bit_cnt = 1`, not 0. -/
theorem tick_start_bit_returns_one :
    ¬ (drivesDataLow (writes powerOn (TIM0_COMPB powerOn)) →
        (TIM0_COMPB powerOn).bit_cnt = 0) := by
  intro h
  have hd : drivesDataLow (writes powerOn (TIM0_COMPB powerOn)) :=
    ⟨⟨0, by decide, by decide⟩, ⟨1, by decide, by decide⟩⟩
  exact absurd (h hd) (by decide)

/-- The actions of a tick, from the cursor read on entry. -/
theorem tick_actions (s : State) :
    (drivesDataLow (writes s (TIM0_COMPB s)) ↔ s.byte_cnt &&& 8 = 0 ∧ s.bit_cnt = 0) ∧
    (releasesData (writes s (TIM0_COMPB s)) ↔ s.byte_cnt &&& 8 = 0 ∧ s.bit_cnt = 1) ∧
    (armsSampler (writes s (TIM0_COMPB s)) ↔ s.bit_cnt = 1 ∧ s.byte_cnt < 2) := by
  have hcP := clear_data_bit s.PORTB
  have hsP := set_data_bit s.PORTB
  have hcD := clear_data_bit s.DDRB
  have hsD := set_data_bit s.DDRB
  have hlow : ∀ b < 2, b &&& 8 = 0 := by decide
  have e1 : (_BV USIOIE ||| _BV USICS0) % 256 = _BV USIOIE ||| _BV USICS0 := by decide
  have e2 : (_BV USIOIF ||| 8) % 256 = _BV USIOIF ||| 8 := by decide
  have hW := TIM0_COMPB_writes s
  rw [e1, e2] at hW
  by_cases hpause : s.byte_cnt &&& 8 ≠ 0
  · rw [if_pos hpause] at hW
    have hge : ¬ s.byte_cnt < 2 := fun hlt => hpause (hlow _ hlt)
    rw [hW]
    refine ⟨⟨?_, ?_⟩, ⟨?_, ?_⟩, ⟨?_, ?_⟩⟩
    · rintro ⟨⟨p, hm, _⟩, _⟩; simp at hm
    · rintro ⟨hz, _⟩; exact absurd hz hpause
    · rintro ⟨⟨d, hm, _⟩, _⟩; simp at hm
    · rintro ⟨hz, _⟩; exact absurd hz hpause
    · rintro ⟨hm, _⟩; simp at hm
    · rintro ⟨_, hlt⟩; exact absurd hlt hge
  · have hz : s.byte_cnt &&& 8 = 0 := by simpa using hpause
    rw [if_neg hpause] at hW
    by_cases hb0 : s.bit_cnt = 0
    · rw [if_pos hb0] at hW
      rw [hW]
      refine ⟨⟨fun _ => ⟨hz, hb0⟩, fun _ => ⟨⟨_, by simp, hcP⟩, ⟨_, by simp, hsD⟩⟩⟩,
        ⟨?_, ?_⟩, ⟨?_, ?_⟩⟩
      · rintro ⟨⟨d, hm, hd⟩, _⟩
        have e : d = (s.DDRB ||| _BV PIN_DATA) % 256 := by simpa using hm
        rw [e, hsD] at hd
        exact Bool.noConfusion hd
      · rintro ⟨_, h1⟩; omega
      · rintro ⟨hm, _⟩; simp at hm
      · rintro ⟨h1, _⟩; omega
    · rw [if_neg hb0] at hW
      by_cases hb1 : s.bit_cnt = 1
      · rw [if_pos hb1] at hW
        rw [hW]
        refine ⟨⟨?_, ?_⟩, ⟨fun _ => ⟨hz, hb1⟩,
          fun _ => ⟨⟨_, by simp, hcD⟩, ⟨_, by simp, hsP⟩⟩⟩, ⟨?_, ?_⟩⟩
        · rintro ⟨_, ⟨d, hm, hd⟩⟩
          have e : d = (s.DDRB &&& int_not (_BV PIN_DATA)) % 256 := by
            split_ifs at hm <;> simpa using hm
          rw [e, hcD] at hd
          exact Bool.noConfusion hd
        · rintro ⟨_, h0⟩; exact absurd h0 hb0
        · rintro ⟨hm, _⟩
          refine ⟨hb1, ?_⟩
          by_contra hge
          rw [if_neg hge] at hm
          simp at hm
        · rintro ⟨_, hlt⟩
          rw [if_pos hlt]
          exact ⟨by simp, by simp⟩
      · rw [if_neg hb1] at hW
        rw [hW]
        refine ⟨⟨?_, ?_⟩, ⟨?_, ?_⟩, ⟨?_, ?_⟩⟩
        · rintro ⟨⟨p, hm, _⟩, _⟩; simp at hm
        · rintro ⟨_, h0⟩; exact absurd h0 hb0
        · rintro ⟨⟨d, hm, _⟩, _⟩; simp at hm
        · rintro ⟨_, h1⟩; exact absurd h1 hb1
        · rintro ⟨hm, _⟩; simp at hm
        · rintro ⟨h1, _⟩; exact absurd h1 hb1

/-- C17 (amended): under the cursor range predicate, one tick first performs exactly the
action prescribed for the cursor read on entry (it asserts the start bit iff
`bit_cnt = 0` and `byte_cnt < 8`, releases the line iff `bit_cnt = 1` and
`byte_cnt < 8`, arms the sampler iff `bit_cnt = 1` and `byte_cnt < 2`, the stores being a
function of the entry cursor and of the two port registers), and then advances the
cursor: it returns with `bit_cnt` increased by one modulo 12 and with `byte_cnt`
increased by one modulo 16 exactly when the entry `bit_cnt` was 11. So a tick that
asserts the start bit returns with `bit_cnt = 1`, and a tick that releases the line or
arms the sampler returns with `bit_cnt = 2`. -/
theorem tick_action_then_advance (s : State) (h : cursorInv s) :
    (drivesDataLow (writes s (TIM0_COMPB s)) ↔ s.bit_cnt = 0 ∧ s.byte_cnt < 8) ∧
    (releasesData (writes s (TIM0_COMPB s)) ↔ s.bit_cnt = 1 ∧ s.byte_cnt < 8) ∧
    (armsSampler (writes s (TIM0_COMPB s)) ↔ s.bit_cnt = 1 ∧ s.byte_cnt < 2) ∧
    (TIM0_COMPB s).bit_cnt = (s.bit_cnt + 1) % 12 ∧
    (TIM0_COMPB s).byte_cnt =
      (if s.bit_cnt = 11 then (s.byte_cnt + 1) % 16 else s.byte_cnt) ∧
    (TIM0_COMPB s).cursor ≠ s.cursor ∧
    (drivesDataLow (writes s (TIM0_COMPB s)) → (TIM0_COMPB s).bit_cnt = 1) ∧
    (releasesData (writes s (TIM0_COMPB s)) → (TIM0_COMPB s).bit_cnt = 2) ∧
    (armsSampler (writes s (TIM0_COMPB s)) → (TIM0_COMPB s).bit_cnt = 2) ∧
    (∀ u : State, u.cursor = s.cursor → u.PORTB = s.PORTB → u.DDRB = s.DDRB →
      writes u (TIM0_COMPB u) = writes s (TIM0_COMPB s)) := by
  obtain ⟨hdrv, hrel, harm⟩ := tick_actions s
  obtain ⟨hbyte, hbit⟩ := TIM0_COMPB_cursor s
  obtain ⟨hi, hb⟩ := h
  have hp := pause_iff s.byte_cnt hb
  have hgate : s.byte_cnt &&& 8 = 0 ↔ s.byte_cnt < 8 := by
    constructor
    · intro hz
      by_contra hge
      exact (hp.2 (by omega)) hz
    · intro hlt
      by_contra hnz
      have := hp.1 hnz
      omega
  have hbit1 : (TIM0_COMPB s).bit_cnt = (s.bit_cnt + 1) % 12 := by
    rw [hbit]; split_ifs <;> omega
  have hbyte1 : (TIM0_COMPB s).byte_cnt =
      (if s.bit_cnt = 11 then (s.byte_cnt + 1) % 16 else s.byte_cnt) := by
    rw [hbyte]; split_ifs <;> omega
  refine ⟨?_, ?_, harm, hbit1, hbyte1, ?_, ?_, ?_, ?_, ?_⟩
  · rw [hdrv, hgate]; exact and_comm
  · rw [hrel, hgate]; exact and_comm
  · intro e
    simp only [State.cursor, Prod.mk.injEq] at e
    rw [hbit1] at e
    omega
  · intro hd
    rw [hbit1, (hdrv.1 hd).2]
  · intro hr
    rw [hbit1, (hrel.1 hr).2]
  · intro ha
    rw [hbit1, (harm.1 ha).1]
  · intro u hcur hP hD
    simp only [State.cursor, Prod.mk.injEq] at hcur
    rw [TIM0_COMPB_writes, TIM0_COMPB_writes, hcur.1, hcur.2, hP, hD]

theorem tick_action_then_advance_witness :
    (cursorInv powerOn ∧ cursorInv slot1Bit1) ∧
    (drivesDataLow (writes powerOn (TIM0_COMPB powerOn)) ∧
      (TIM0_COMPB powerOn).bit_cnt = 1) ∧
    (releasesData (writes slot1Bit1 (TIM0_COMPB slot1Bit1)) ∧
      armsSampler (writes slot1Bit1 (TIM0_COMPB slot1Bit1)) ∧
      (TIM0_COMPB slot1Bit1).bit_cnt = 2) ∧
    ((drivesDataLow (writes slot1Bit1 (TIM0_COMPB slot1Bit1)) ↔
        slot1Bit1.bit_cnt = 0 ∧ slot1Bit1.byte_cnt < 8) ∧
    (releasesData (writes slot1Bit1 (TIM0_COMPB slot1Bit1)) ↔
        slot1Bit1.bit_cnt = 1 ∧ slot1Bit1.byte_cnt < 8) ∧
    (armsSampler (writes slot1Bit1 (TIM0_COMPB slot1Bit1)) ↔
        slot1Bit1.bit_cnt = 1 ∧ slot1Bit1.byte_cnt < 2) ∧
    (TIM0_COMPB slot1Bit1).bit_cnt = (slot1Bit1.bit_cnt + 1) % 12 ∧
    (TIM0_COMPB slot1Bit1).byte_cnt =
      (if slot1Bit1.bit_cnt = 11 then (slot1Bit1.byte_cnt + 1) % 16
       else slot1Bit1.byte_cnt) ∧
    (TIM0_COMPB slot1Bit1).cursor ≠ slot1Bit1.cursor ∧
    (drivesDataLow (writes slot1Bit1 (TIM0_COMPB slot1Bit1)) →
      (TIM0_COMPB slot1Bit1).bit_cnt = 1) ∧
    (releasesData (writes slot1Bit1 (TIM0_COMPB slot1Bit1)) →
      (TIM0_COMPB slot1Bit1).bit_cnt = 2) ∧
    (armsSampler (writes slot1Bit1 (TIM0_COMPB slot1Bit1)) →
      (TIM0_COMPB slot1Bit1).bit_cnt = 2) ∧
    (∀ u : State, u.cursor = slot1Bit1.cursor → u.PORTB = slot1Bit1.PORTB →
      u.DDRB = slot1Bit1.DDRB →
      writes u (TIM0_COMPB u) = writes slot1Bit1 (TIM0_COMPB slot1Bit1))) :=
  ⟨by decide,
    ⟨(tick_action_then_advance powerOn (by decide)).1.2 (by decide),
      (tick_action_then_advance powerOn (by decide)).2.2.2.1⟩,
    ⟨(tick_action_then_advance slot1Bit1 (by decide)).2.1.2 (by decide),
      (tick_action_then_advance slot1Bit1 (by decide)).2.2.1.2 (by decide),
      (tick_action_then_advance slot1Bit1 (by decide)).2.2.2.1⟩,
    tick_action_then_advance slot1Bit1 (by decide)⟩

/-! ## Frame of the command interpreter -/

/-- Executing a concatenation of event sequences. -/
theorem exec_append (a b : List Event) (s : State) :
    exec (a ++ b) s = (exec a s).bind (exec b) := by
  induction a generalizing s with
  | nil => rfl
  | cons e es ih =>
    simp only [List.cons_append, exec]
    cases step e s with
    | none => rfl
    | some t => simpa using ih t

/-- The trace only grows during a tick. -/
theorem TIM0_COMPB_trace (s : State) :
    (TIM0_COMPB s).trace = s.trace ++ writes s (TIM0_COMPB s) := by
  unfold TIM0_COMPB writes
  simp only [State.setPORTB, State.setDDRB, State.setUSICR, State.setUSISR]
  split_ifs <;> simp

/-- A sampler clock has no effect while the sampler is disabled. -/
theorem sampleClock_off (r : Nat) (u : State) (h : u.USICR = 0) :
    sampleClock r u = some u := by
  have hoff : (0 : Nat) &&& _BV USICS0 = 0 := by decide
  simp only [sampleClock]
  rw [h, if_pos hoff]

/-- A sampler clock below the top of the counter increments it. -/
theorem sampleClock_count (r : Nat) (u : State)
    (h : u.USICR = _BV USIOIE ||| _BV USICS0) (hc : u.USISR % 16 < 15) :
    sampleClock r u = some { u with USISR := u.USISR / 16 * 16 + (u.USISR % 16 + 1) } := by
  have harm : ¬ ((_BV USIOIE ||| _BV USICS0) &&& _BV USICS0 = 0) := by decide
  have hcnt : (u.USISR % 16 + 1) % 16 = u.USISR % 16 + 1 := by omega
  have hne : ¬ (u.USISR % 16 + 1 = 0 ∧
      (_BV USIOIE ||| _BV USICS0) &&& _BV USIOIE ≠ 0) := by
    rintro ⟨h0, _⟩; omega
  simp only [sampleClock]
  rw [h, if_neg harm, hcnt, if_neg hne]

/-- A sampler clock at the top of the counter, in byte slot 0: the completion handler
stores `recvd[0]`. -/
theorem sampleClock_overflow0 (r : Nat) (u : State)
    (h : u.USICR = _BV USIOIE ||| _BV USICS0) (hc : u.USISR % 16 = 15)
    (hb : u.byte_cnt = 0) :
    sampleClock r u = some
      { u with
        USISR := u.USISR / 16 * 16
        USICR := 0
        recvd0 := decode r
        trace := u.trace ++ [Store.USICR 0, Store.recvd 0 (decode r)] } := by
  have harm : ¬ ((_BV USIOIE ||| _BV USICS0) &&& _BV USICS0 = 0) := by decide
  have hoie : (0 = 0 ∧ (_BV USIOIE ||| _BV USICS0) &&& _BV USIOIE ≠ 0) := by decide
  have hcnt : (u.USISR % 16 + 1) % 16 = 0 := by omega
  obtain ⟨bc, bi, r0, r1, d, p, dd, uc, us, oc, tr⟩ := u
  simp only at h hc hb hcnt
  subst hb
  simp only [sampleClock]
  rw [h, if_neg harm, hcnt, if_pos hoie]
  simp [USI_OVF, State.setUSICR, State.setRecvd, decode, bind, pure]

/-- A sampler clock at the top of the counter, in byte slot 1: the completion handler
stores `recvd[1]` and sets `data_received`. -/
theorem sampleClock_overflow1 (r : Nat) (u : State)
    (h : u.USICR = _BV USIOIE ||| _BV USICS0) (hc : u.USISR % 16 = 15)
    (hb : u.byte_cnt = 1) :
    sampleClock r u = some
      { u with
        USISR := u.USISR / 16 * 16
        USICR := 0
        recvd1 := decode r
        data_received := true
        trace := u.trace ++ [Store.USICR 0, Store.recvd 1 (decode r),
          Store.data_received true] } := by
  have harm : ¬ ((_BV USIOIE ||| _BV USICS0) &&& _BV USICS0 = 0) := by decide
  have hoie : (0 = 0 ∧ (_BV USIOIE ||| _BV USICS0) &&& _BV USIOIE ≠ 0) := by decide
  have hcnt : (u.USISR % 16 + 1) % 16 = 0 := by omega
  obtain ⟨bc, bi, r0, r1, d, p, dd, uc, us, oc, tr⟩ := u
  simp only at h hc hb hcnt
  subst hb
  simp only [sampleClock]
  rw [h, if_neg harm, hcnt, if_pos hoie]
  simp [USI_OVF, State.setUSICR, State.setRecvd, State.setDataReceived, decode, bind, pure]

/-- The tick of bit period `k`: the cursor advances, and the sampler is armed exactly
in periods 1 and 13. -/
theorem tick_phase (k : Nat) (s : State) (hk : k < 192) (h : phaseInv k s) :
    midInv k (TIM0_COMPB s) ∧
    (writes s (TIM0_COMPB s)).filter Store.isSampler =
      (if k = 1 ∨ k = 13 then
        [Store.USICR (_BV USIOIE ||| _BV USICS0), Store.USISR (_BV USIOIF ||| 8)]
       else []) ∧
    (writes s (TIM0_COMPB s)).countP Store.isDuty = 0 := by
  obtain ⟨hbyte, hbit, husi⟩ := h
  obtain ⟨hc1, hc2⟩ := TIM0_COMPB_cursor s
  obtain ⟨_, _, hC, hS⟩ := TIM0_COMPB_regs s
  have hW := TIM0_COMPB_writes s
  have e1 : (_BV USIOIE ||| _BV USICS0) % 256 = _BV USIOIE ||| _BV USICS0 := by decide
  have e2 : (_BV USIOIF ||| 8) % 256 = _BV USIOIF ||| 8 := by decide
  have e3 : (_BV USIOIF ||| 8) % 16 = 8 := by decide
  have hlow : ∀ b < 2, b &&& 8 = 0 := by decide
  rw [e1] at hC hW
  rw [e2] at hS hW
  have hbyte1 : (TIM0_COMPB s).byte_cnt = ((k + 1) / 12) % 16 := by
    rw [hc1, hbyte, hbit]; split_ifs <;> omega
  have hbit1 : (TIM0_COMPB s).bit_cnt = (k + 1) % 12 := by
    rw [hc2, hbit]; split_ifs <;> omega
  have hduty : (writes s (TIM0_COMPB s)).countP Store.isDuty = 0 := by
    rw [hW]
    split_ifs <;> rfl
  by_cases ha : k = 1 ∨ k = 13
  · have hb1 : s.bit_cnt = 1 := by rw [hbit]; omega
    have hlt : s.byte_cnt < 2 := by rw [hbyte]; omega
    have hz := hlow _ hlt
    rw [if_pos ⟨hz, hb1, hlt⟩] at hC hS
    rw [if_neg (by simp [hz]), if_neg (by omega), if_pos hb1, if_pos hlt] at hW
    refine ⟨⟨hbyte1, hbit1, ?_⟩, ?_, hduty⟩
    · rw [hC, hS, e3]
      rcases ha with rfl | rfl <;> decide
    · rw [hW, if_pos ha]
      rfl
  · have hnarm : ¬ (s.byte_cnt &&& 8 = 0 ∧ s.bit_cnt = 1 ∧ s.byte_cnt < 2) := by
      rintro ⟨_, hb1, hlt⟩
      rw [hbit] at hb1
      rw [hbyte] at hlt
      omega
    rw [if_neg hnarm] at hC hS
    refine ⟨⟨hbyte1, hbit1, ?_⟩, ?_, hduty⟩
    · rw [hC, hS]
      by_cases h28 : 2 ≤ k ∧ k ≤ 8
      · rw [if_pos h28] at husi
        rw [if_pos (by omega)]; exact husi
      · rw [if_neg h28] at husi
        by_cases h1420 : 14 ≤ k ∧ k ≤ 20
        · rw [if_pos h1420] at husi
          rw [if_neg (by omega), if_pos (by omega)]; exact husi
        · rw [if_neg h1420] at husi
          rw [if_neg (by omega), if_neg (by omega)]; exact husi
    · rw [hW, if_neg ha]
      split_ifs with h1 h2 h3 h4
      · rfl
      · rfl
      · exact absurd ⟨by simpa using h1, h3, h4⟩ hnarm
      · rfl
      · rfl

/-- The sampler clock of bit period `k`: it completes a byte exactly in periods 8 and
20, and touches neither the duty register nor the port. -/
theorem clock_phase (k r : Nat) (u : State) (hk : k < 192) (h : midInv k u) :
    ∃ t, sampleClock r u = some t ∧ phaseInv (k + 1) t ∧
      t.trace = u.trace ++ clockStoresAt k r ∧
      t.OCR1B = u.OCR1B ∧ t.PORTB = u.PORTB ∧
      t.recvd0 = (if k = 8 then decode r else u.recvd0) ∧
      t.recvd1 = (if k = 20 then decode r else u.recvd1) ∧
      t.data_received = (if k = 20 then true else u.data_received) := by
  obtain ⟨hbyte, hbit, husi⟩ := h
  by_cases hrun : (1 ≤ k ∧ k ≤ 8) ∨ (13 ≤ k ∧ k ≤ 20)
  · have hu : u.USICR = _BV USIOIE ||| _BV USICS0 ∧
        u.USISR % 16 = (if k ≤ 8 then k + 7 else k - 5) := by
      rcases hrun with h18 | h1320
      · rw [if_pos h18] at husi
        rw [if_pos h18.2]; exact husi
      · rw [if_neg (by omega), if_pos h1320] at husi
        rw [if_neg (by omega)]; exact husi
    obtain ⟨hu1, hu2⟩ := hu
    by_cases h8 : k = 8
    · subst h8
      have h15 : u.USISR % 16 = 15 := by rw [hu2]; decide
      refine ⟨_, sampleClock_overflow0 r u hu1 h15 (by rw [hbyte]), ⟨hbyte, hbit, ?_⟩,
        rfl, rfl, rfl, rfl, rfl, rfl⟩
      show (if 2 ≤ 8 + 1 ∧ 8 + 1 ≤ 8 then _ else _)
      rw [if_neg (by omega), if_neg (by omega)]
    · by_cases h20 : k = 20
      · subst h20
        have h15 : u.USISR % 16 = 15 := by rw [hu2]; decide
        refine ⟨_, sampleClock_overflow1 r u hu1 h15 (by rw [hbyte]), ⟨hbyte, hbit, ?_⟩,
          rfl, rfl, rfl, rfl, rfl, rfl⟩
        show (if 2 ≤ 20 + 1 ∧ 20 + 1 ≤ 8 then _ else _)
        rw [if_neg (by omega), if_neg (by omega)]
      · have hlt15 : u.USISR % 16 < 15 := by
          rw [hu2]; split_ifs <;> omega
        refine ⟨_, sampleClock_count r u hu1 hlt15, ⟨hbyte, hbit, ?_⟩, ?_,
          rfl, rfl, ?_, ?_, ?_⟩
        · show (if 2 ≤ k + 1 ∧ k + 1 ≤ 8 then _ else _)
          simp only [hu1]
          have hmod : (u.USISR / 16 * 16 + (u.USISR % 16 + 1)) % 16 = u.USISR % 16 + 1 := by
            omega
          rw [hmod, hu2]
          split_ifs <;> first | omega | (refine ⟨trivial, ?_⟩; omega)
        · simp [clockStoresAt, h8, h20]
        · rw [if_neg h8]
        · rw [if_neg h20]
        · rw [if_neg h20]
  · have hu : u.USICR = 0 := by
      rw [if_neg (by omega), if_neg (by omega)] at husi
      exact husi
    have h8 : ¬ k = 8 := by omega
    have h20 : ¬ k = 20 := by omega
    refine ⟨u, sampleClock_off r u hu, ⟨hbyte, hbit, ?_⟩, ?_, rfl, rfl, ?_, ?_, ?_⟩
    · show (if 2 ≤ k + 1 ∧ k + 1 ≤ 8 then _ else _)
      rw [if_neg (by omega), if_neg (by omega)]
      exact hu
    · simp [clockStoresAt, h8, h20]
    · rw [if_neg h8]
    · rw [if_neg h20]
    · rw [if_neg h20]

/-- One bit period (a tick, then a sampler clock) from a state in phase `k`. -/
theorem period_step (k r : Nat) (s : State) (hk : k < 192) (h : phaseInv k s) :
    ∃ t ws, exec [Event.tick, Event.clock r] s = some t ∧ t.trace = s.trace ++ ws ∧
      ws.filter Store.isSampler = samplerStoresAt k r ∧ phaseInv (k + 1) t := by
  obtain ⟨hmid, hfil, _⟩ := tick_phase k s hk h
  obtain ⟨t, ht, hp, htr, _⟩ := clock_phase k r (TIM0_COMPB s) hk hmid
  refine ⟨t, writes s (TIM0_COMPB s) ++ clockStoresAt k r, ?_, ?_, ?_, hp⟩
  · simp only [exec, step, Option.some_bind]
    rw [ht]; rfl
  · rw [htr, TIM0_COMPB_trace, List.append_assoc]
  · rw [List.filter_append, hfil]
    simp only [samplerStoresAt, clockStoresAt]
    by_cases ha : k = 1 ∨ k = 13
    · rw [if_pos ha, if_pos ha, if_neg (by omega), if_neg (by omega)]
      rfl
    · rw [if_neg ha, if_neg ha]
      split_ifs <;> rfl

/-- Any number of bit periods within a frame, from a frame boundary. -/
theorem periods_run (raw : Nat → Nat) (s : State) (h0 : phaseInv 0 s) (n : Nat)
    (hn : n ≤ 192) :
    ∃ t ws, exec (periods raw n) s = some t ∧ t.trace = s.trace ++ ws ∧
      ws.filter Store.isSampler = samplerStores raw n ∧ phaseInv n t := by
  induction n with
  | zero => exact ⟨s, [], rfl, by simp, rfl, h0⟩
  | succ n ih =>
    obtain ⟨t, ws, ht, htr, hf, hp⟩ := ih (by omega)
    obtain ⟨u, ws2, hu, hutr, hf2, hp2⟩ := period_step n (raw n) t (by omega) hp
    refine ⟨u, ws ++ ws2, ?_, ?_, ?_, hp2⟩
    · show exec (periods raw n ++ [Event.tick, Event.clock (raw n)]) s = some u
      rw [exec_append, ht]
      exact hu
    · rw [hutr, htr, List.append_assoc]
    · rw [List.filter_append, hf, hf2]
      rfl

/-- The stores between two states, from the growth of the trace. -/
theorem writes_of_trace (s t : State) (ws : List Store) (h : t.trace = s.trace ++ ws) :
    writes s t = ws := by
  unfold writes
  rw [h, List.drop_left]

/-- After bit period 20 a frame has no further sampler store. -/
theorem samplerStores_tail (raw : Nat → Nat) (n : Nat) :
    samplerStores raw (21 + n) = samplerStores raw 21 := by
  induction n with
  | zero => rfl
  | succ n ih =>
    show samplerStores raw (21 + n) ++ samplerStoresAt (21 + n) (raw (21 + n)) = _
    rw [ih]
    simp only [samplerStoresAt]
    rw [if_neg (by omega), if_neg (by omega), if_neg (by omega), List.append_nil]

/-- The sampler stores of a whole frame. -/
theorem samplerStores_frame (raw : Nat → Nat) :
    samplerStores raw 192 =
      [Store.USICR (_BV USIOIE ||| _BV USICS0), Store.USISR (_BV USIOIF ||| 8),
       Store.USICR 0, Store.recvd 0 (decode (raw 8)),
       Store.USICR (_BV USIOIE ||| _BV USICS0), Store.USISR (_BV USIOIF ||| 8),
       Store.USICR 0, Store.recvd 1 (decode (raw 20)), Store.data_received true] := by
  have h := samplerStores_tail raw 171
  rw [show 21 + 171 = 192 from rfl] at h
  rw [h]
  simp [samplerStores, samplerStoresAt]

/-- Counting sampler stores can be done after filtering. -/
theorem countP_sampler (p : Store → Bool) (hp : ∀ a, p a = true → a.isSampler = true)
    (ws : List Store) : ws.countP p = (ws.filter Store.isSampler).countP p := by
  rw [List.countP_filter]
  congr 1
  funext a
  cases hpa : p a
  · simp
  · simp [hp a hpa]

/-- C19: with ticks and sampler clocks in strict alternation from a frame boundary (as
at power-on), every step of a frame is defined, so each store `recvd[byte_cnt]` is
inside the array; the sampler is armed in bit periods 1 and 13 and the completion
handler runs in periods 8 and 20, in the byte slot of the arming; over the 192 ticks
`recvd[0]` and `recvd[1]` are each stored once and `data_received` is set once, and the
frame ends at a frame boundary again. -/
theorem one_write_per_slot (raw : Nat → Nat) (s : State) (h : frameStart s) :
    frameStart powerOn ∧
    (∀ n, n ≤ 192 → ∃ t, exec (periods raw n) s = some t ∧
      t.cursor = ((n / 12) % 16, n % 12) ∧
      (writes s t).filter Store.isSampler = samplerStores raw n) ∧
    ∃ t, exec (periods raw 192) s = some t ∧ frameStart t ∧
      (writes s t).filter Store.isSampler =
        [Store.USICR (_BV USIOIE ||| _BV USICS0), Store.USISR (_BV USIOIF ||| 8),
         Store.USICR 0, Store.recvd 0 (decode (raw 8)),
         Store.USICR (_BV USIOIE ||| _BV USICS0), Store.USISR (_BV USIOIF ||| 8),
         Store.USICR 0, Store.recvd 1 (decode (raw 20)), Store.data_received true] ∧
      (writes s t).countP (Store.isRecvd 0) = 1 ∧
      (writes s t).countP (Store.isRecvd 1) = 1 ∧
      (writes s t).countP Store.isFlagSet = 1 ∧
      (∀ i v, Store.recvd i v ∈ writes s t → i < 2) := by
  have h0 : phaseInv 0 s := by
    obtain ⟨hb, hi, hu⟩ := h
    exact ⟨hb, hi, by rw [if_neg (by omega), if_neg (by omega)]; exact hu⟩
  refine ⟨by decide, ?_, ?_⟩
  · intro n hn
    obtain ⟨t, ws, ht, htr, hf, hp⟩ := periods_run raw s h0 n hn
    refine ⟨t, ht, ?_, ?_⟩
    · simp only [State.cursor, hp.1, hp.2.1]
    · rw [writes_of_trace s t ws htr]; exact hf
  · obtain ⟨t, ws, ht, htr, hf, hp⟩ := periods_run raw s h0 192 (le_refl _)
    have hw := writes_of_trace s t ws htr
    rw [samplerStores_frame] at hf
    have hstart : frameStart t := by
      obtain ⟨hb, hi, hu⟩ := hp
      rw [if_neg (by omega), if_neg (by omega)] at hu
      exact ⟨hb, hi, hu⟩
    refine ⟨t, ht, hstart, by rw [hw]; exact hf, ?_, ?_, ?_, ?_⟩
    · rw [hw, countP_sampler _ (by intro a; cases a <;> simp [Store.isRecvd, Store.isSampler]),
        hf]
      simp [Store.isRecvd]
    · rw [hw, countP_sampler _ (by intro a; cases a <;> simp [Store.isRecvd, Store.isSampler]),
        hf]
      simp [Store.isRecvd]
    · rw [hw, countP_sampler _ (by
        intro a; cases a <;> simp [Store.isFlagSet, Store.isSampler]), hf]
      simp [Store.isFlagSet]
    · intro i v hm
      rw [hw] at hm
      have hm2 : Store.recvd i v ∈ ws.filter Store.isSampler :=
        List.mem_filter.2 ⟨hm, rfl⟩
      rw [hf] at hm2
      simp at hm2
      rcases hm2 with ⟨rfl, _⟩ | ⟨rfl, _⟩ <;> decide

theorem one_write_per_slot_witness :
    frameStart powerOn ∧
    (frameStart powerOn ∧
    (∀ n, n ≤ 192 → ∃ t, exec (periods (fun _ => 0xEB) n) powerOn = some t ∧
      t.cursor = ((n / 12) % 16, n % 12) ∧
      (writes powerOn t).filter Store.isSampler = samplerStores (fun _ => 0xEB) n) ∧
    ∃ t, exec (periods (fun _ => 0xEB) 192) powerOn = some t ∧ frameStart t ∧
      (writes powerOn t).filter Store.isSampler =
        [Store.USICR (_BV USIOIE ||| _BV USICS0), Store.USISR (_BV USIOIF ||| 8),
         Store.USICR 0, Store.recvd 0 (decode ((fun _ => 0xEB) 8)),
         Store.USICR (_BV USIOIE ||| _BV USICS0), Store.USISR (_BV USIOIF ||| 8),
         Store.USICR 0, Store.recvd 1 (decode ((fun _ => 0xEB) 20)),
         Store.data_received true] ∧
      (writes powerOn t).countP (Store.isRecvd 0) = 1 ∧
      (writes powerOn t).countP (Store.isRecvd 1) = 1 ∧
      (writes powerOn t).countP Store.isFlagSet = 1 ∧
      (∀ i v, Store.recvd i v ∈ writes powerOn t → i < 2)) :=
  ⟨by decide, one_write_per_slot (fun _ => 0xEB) powerOn (by decide)⟩

/-! ## End-to-end frame -/

/-- A main-loop iteration with no frame pending does nothing. -/
theorem mainStep_idle (u : State) (h : u.data_received = false) : mainStep u = u := by
  simp [mainStep, h]

/-- A main-loop iteration with a Reverse, full speed move command pending. -/
theorem mainStep_reverse (u : State) (hd : u.data_received = true)
    (h0 : u.recvd0 = 0x28) (hlt : u.recvd1 < 256) (h1 : u.recvd1 &&& 0x1E = 0x1E) :
    mainStep u =
      { u with
        OCR1B := 255
        PORTB := _BV PIN_REV ||| _BV PIN_LED
        data_received := false
        trace := u.trace ++ [Store.OCR1B 255, Store.PORTB (_BV PIN_REV ||| _BV PIN_LED),
          Store.data_received false] } := by
  have hv : ∀ v < 256, v &&& 0x1E = 0x1E → (v >>> 1) &&& 7 = 7 ∧ v &&& 0x10 ≠ 0 := by decide
  obtain ⟨h7, h16⟩ := hv _ hlt h1
  have hs : speeds.getD 7 0 = 255 := rfl
  have hport : (_BV PIN_REV ||| _BV PIN_LED) % 256 = _BV PIN_REV ||| _BV PIN_LED := by decide
  simp only [mainStep, control_motor, State.setOCR1B, State.setPORTB, State.setDataReceived]
  rw [if_pos hd, if_pos h0, if_pos h16, h7, hs, hport]
  simp

/-- One polled bit period of the end-to-end frame. -/
theorem polled_step (k r : Nat) (s : State) (hk : k < 192) (h : frameInv k s)
    (h8 : k = 8 → decode r = 0x28) (h20 : k = 20 → decode r &&& 0x1E = 0x1E) :
    ∃ t, sampleClock r (TIM0_COMPB s) = some t ∧
      mainStep (TIM0_COMPB s) = TIM0_COMPB s ∧
      frameInv (k + 1) (mainStep t) ∧
      (if k ≤ 20 then actuatorIdle (TIM0_COMPB s) ∧ actuatorIdle t
       else actuatorReverse (TIM0_COMPB s) ∧ actuatorReverse t) ∧
      (k = 20 → t.byte_cnt = 1 ∧
        writes (TIM0_COMPB s) t =
          [Store.USICR 0, Store.recvd 1 (decode r), Store.data_received true] ∧
        writes t (mainStep t) =
          [Store.OCR1B 255, Store.PORTB (_BV PIN_REV ||| _BV PIN_LED),
           Store.data_received false]) := by
  obtain ⟨hp, hd, hr0, hact⟩ := h
  obtain ⟨hmid, _, hduty⟩ := tick_phase k s hk hp
  obtain ⟨t, ht, hp1, htr, tO, tP, t0, t1, tD⟩ := clock_phase k r (TIM0_COMPB s) hk hmid
  obtain ⟨k0, k1, kD, kO⟩ := tick_keeps_data s
  have kREV := tick_port_keeps s PIN_REV (by decide) (by decide)
  have kFW := tick_port_keeps s PIN_FW (by decide) (by decide)
  have kT : (TIM0_COMPB s).trace.countP Store.isDuty = s.trace.countP Store.isDuty := by
    rw [TIM0_COMPB_trace, List.countP_append, hduty, Nat.add_zero]
  have cT : t.trace.countP Store.isDuty = s.trace.countP Store.isDuty := by
    rw [htr, List.countP_append, kT]
    have hz : (clockStoresAt k r).countP Store.isDuty = 0 := by
      simp only [clockStoresAt]
      split_ifs <;> rfl
    rw [hz, Nat.add_zero]
  have hidleT : mainStep (TIM0_COMPB s) = TIM0_COMPB s :=
    mainStep_idle _ (by rw [kD]; exact hd)
  -- the actuator after the tick and after the sampler clock
  have hmidact : (if k ≤ 20 then actuatorIdle (TIM0_COMPB s) ∧ actuatorIdle t
      else actuatorReverse (TIM0_COMPB s) ∧ actuatorReverse t) := by
    by_cases hle : k ≤ 20
    · rw [if_pos hle] at hact ⊢
      obtain ⟨a, b, c, e⟩ := hact
      exact ⟨⟨by rw [kO]; exact a, by rw [kREV]; exact b, by rw [kFW]; exact c,
          by rw [kT]; exact e⟩,
        ⟨by rw [tO, kO]; exact a, by rw [tP, kREV]; exact b, by rw [tP, kFW]; exact c,
          by rw [cT]; exact e⟩⟩
    · rw [if_neg hle] at hact ⊢
      obtain ⟨a, b, c, e⟩ := hact
      exact ⟨⟨by rw [kO]; exact a, by rw [kREV]; exact b, by rw [kFW]; exact c,
          by rw [kT]; exact e⟩,
        ⟨by rw [tO, kO]; exact a, by rw [tP, kREV]; exact b, by rw [tP, kFW]; exact c,
          by rw [cT]; exact e⟩⟩
  refine ⟨t, ht, hidleT, ?_, hmidact, ?_⟩
  · by_cases hk20 : k = 20
    · -- the frame is complete: the poll runs the command interpreter
      subst hk20
      rw [if_pos rfl] at t1 tD
      rw [if_neg (by decide)] at t0
      have hmove := mainStep_reverse t tD (by rw [t0, k0]; exact hr0 (by decide) (by decide))
        (by rw [t1]; exact decode_lt r) (by rw [t1]; exact h20 rfl)
      rw [if_pos (le_refl _)] at hmidact
      obtain ⟨_, ⟨_, _, _, e⟩⟩ := hmidact
      rw [hmove]
      refine ⟨hp1, rfl, fun _ h => absurd h (by decide), ?_⟩
      rw [if_neg (by decide)]
      have hR : (_BV PIN_REV ||| _BV PIN_LED).testBit PIN_REV = true := by decide
      have hF : (_BV PIN_REV ||| _BV PIN_LED).testBit PIN_FW = false := by decide
      refine ⟨rfl, hR, hF, ?_⟩
      show List.countP Store.isDuty (t.trace ++ _) = 1
      rw [List.countP_append, e]
      rfl
    · rw [if_neg hk20] at tD
      have hdt : t.data_received = false := by rw [tD, kD]; exact hd
      rw [mainStep_idle t hdt]
      refine ⟨hp1, hdt, ?_, ?_⟩
      · intro h9 hle
        rw [t0]
        by_cases hk8 : k = 8
        · rw [if_pos hk8]; exact h8 hk8
        · rw [if_neg hk8, k0]; exact hr0 (by omega) (by omega)
      · by_cases hle : k ≤ 20
        · rw [if_pos hle] at hmidact
          rw [if_pos (by omega)]
          exact hmidact.2
        · rw [if_neg hle] at hmidact
          rw [if_neg (by omega)]
          exact hmidact.2
  · intro hk20
    subst hk20
    rw [if_pos rfl] at t1 tD
    rw [if_neg (by decide)] at t0
    have hmove := mainStep_reverse t tD (by rw [t0, k0]; exact hr0 (by decide) (by decide))
      (by rw [t1]; exact decode_lt r) (by rw [t1]; exact h20 rfl)
    refine ⟨by rw [hp1.1], ?_, ?_⟩
    · rw [writes_of_trace _ _ _ htr]
      rfl
    · rw [hmove]
      exact writes_of_trace _ _ _ rfl

/-- The invariant of the end-to-end frame holds at power-on. -/
theorem frameInv_powerOn : frameInv 0 powerOn := by
  refine ⟨⟨rfl, rfl, rfl⟩, rfl, fun h => absurd h (by decide), ?_⟩
  rw [if_pos (by decide)]
  exact ⟨rfl, by decide, by decide, rfl⟩

/-- Any number of polled bit periods of the end-to-end frame, from power-on. -/
theorem polled_run (raw : Nat → Nat) (h0 : decode (raw 8) = 0x28)
    (h1 : decode (raw 20) &&& 0x1E = 0x1E) (n : Nat) (hn : n ≤ 192) :
    ∃ s, exec (polledPeriods raw n) powerOn = some s ∧ frameInv n s := by
  induction n with
  | zero => exact ⟨powerOn, rfl, frameInv_powerOn⟩
  | succ n ih =>
    obtain ⟨s, hs, hinv⟩ := ih (by omega)
    obtain ⟨t, ht, hidle, hnext, _⟩ := polled_step n (raw n) s (by omega) hinv
      (fun e => by rw [e]; exact h0) (fun e => by rw [e]; exact h1)
    refine ⟨mainStep t, ?_, hnext⟩
    show exec (polledPeriods raw n ++
      [Event.tick, Event.poll, Event.clock (raw n), Event.poll]) powerOn = _
    rw [exec_append, hs]
    simp only [Option.some_bind, exec, step]
    rw [hidle, ht]
    rfl

/-- C14: one polled frame from power-on in which the capture of byte slot 0 decodes to
`0x28` and that of byte slot 1 to a byte with bits 1 to 4 set. Every prefix of the frame
(`i` whole bit periods and `j` further events) is defined; through the first 83 events,
the last of which is the sampler clock that completes byte slot 1, the duty is 0, both
direction outputs are clear and the duty register has not been stored; the poll that
follows stores duty 255 and a port value with Reverse set and Forward clear; from then
on the duty stays 255 with Reverse set, and the duty register has been stored once. -/
theorem end_to_end (raw : Nat → Nat) (h0 : decode (raw 8) = 0x28)
    (h1 : decode (raw 20) &&& 0x1E = 0x1E) (i j : Nat) (hi : i < 192) (hj : j ≤ 4) :
    (∃ t, exec (polledPeriods raw i ++
          List.take j [Event.tick, Event.poll, Event.clock (raw i), Event.poll]) powerOn
        = some t ∧
      (4 * i + j ≤ 83 → actuatorIdle t) ∧ (84 ≤ 4 * i + j → actuatorReverse t)) ∧
    (∃ u t, exec (polledPeriods raw 20 ++ [Event.tick, Event.poll]) powerOn = some u ∧
      sampleClock (raw 20) u = some t ∧ t.byte_cnt = 1 ∧
      writes u t = [Store.USICR 0, Store.recvd 1 (decode (raw 20)),
        Store.data_received true] ∧
      writes t (mainStep t) =
        [Store.OCR1B 255, Store.PORTB (_BV PIN_REV ||| _BV PIN_LED),
         Store.data_received false] ∧
      (mainStep t).OCR1B = 255 ∧ (mainStep t).PORTB.testBit PIN_REV = true ∧
      (mainStep t).PORTB.testBit PIN_FW = false) := by
  constructor
  · obtain ⟨s, hs, hinv⟩ := polled_run raw h0 h1 i (by omega)
    obtain ⟨t, ht, hidle, hnext, hmid, _⟩ := polled_step i (raw i) s hi hinv
      (fun e => by rw [e]; exact h0) (fun e => by rw [e]; exact h1)
    obtain ⟨_, _, _, hact⟩ := hinv
    obtain ⟨_, _, _, hact1⟩ := hnext
    have hj5 : j < 5 := by omega
    interval_cases j
    · refine ⟨s, by rw [exec_append, hs]; rfl, ?_, ?_⟩
      · intro hle; rw [if_pos (by omega)] at hact; exact hact
      · intro hge; rw [if_neg (by omega)] at hact; exact hact
    · refine ⟨TIM0_COMPB s, by rw [exec_append, hs]; rfl, ?_, ?_⟩
      · intro hle; rw [if_pos (by omega)] at hmid; exact hmid.1
      · intro hge; rw [if_neg (by omega)] at hmid; exact hmid.1
    · refine ⟨TIM0_COMPB s, ?_, ?_, ?_⟩
      · rw [exec_append, hs]
        simp only [List.take, Option.some_bind, exec, step]
        rw [hidle]
      · intro hle; rw [if_pos (by omega)] at hmid; exact hmid.1
      · intro hge; rw [if_neg (by omega)] at hmid; exact hmid.1
    · refine ⟨t, ?_, ?_, ?_⟩
      · rw [exec_append, hs]
        simp only [List.take, Option.some_bind, exec, step]
        rw [hidle, ht]
        rfl
      · intro hle; rw [if_pos (by omega)] at hmid; exact hmid.2
      · intro hge; rw [if_neg (by omega)] at hmid; exact hmid.2
    · refine ⟨mainStep t, ?_, ?_, ?_⟩
      · rw [exec_append, hs]
        simp only [List.take, Option.some_bind, exec, step]
        rw [hidle, ht]
        rfl
      · intro hle; rw [if_pos (by omega)] at hact1; exact hact1
      · intro hge; rw [if_neg (by omega)] at hact1; exact hact1
  · obtain ⟨s, hs, hinv⟩ := polled_run raw h0 h1 20 (by decide)
    obtain ⟨t, ht, hidle, hnext, _, h20⟩ := polled_step 20 (raw 20) s (by decide) hinv
      (fun e => absurd e (by decide)) (fun _ => h1)
    obtain ⟨hb, hw1, hw2⟩ := h20 rfl
    obtain ⟨_, _, _, hact1⟩ := hnext
    rw [if_neg (by decide)] at hact1
    refine ⟨TIM0_COMPB s, t, ?_, ht, hb, hw1, hw2, hact1.1, hact1.2.1, hact1.2.2.1⟩
    rw [exec_append, hs]
    simp only [Option.some_bind, exec, step]
    rw [hidle]

theorem end_to_end_witness :
    (decode (rawReverse 8) = 0x28 ∧ decode (rawReverse 20) &&& 0x1E = 0x1E ∧
      20 < 192 ∧ 4 ≤ 4) ∧
    ((∃ t, exec (polledPeriods rawReverse 20 ++
          List.take 4 [Event.tick, Event.poll, Event.clock (rawReverse 20), Event.poll])
          powerOn = some t ∧
      (4 * 20 + 4 ≤ 83 → actuatorIdle t) ∧ (84 ≤ 4 * 20 + 4 → actuatorReverse t)) ∧
    (∃ u t, exec (polledPeriods rawReverse 20 ++ [Event.tick, Event.poll]) powerOn
        = some u ∧
      sampleClock (rawReverse 20) u = some t ∧ t.byte_cnt = 1 ∧
      writes u t = [Store.USICR 0, Store.recvd 1 (decode (rawReverse 20)),
        Store.data_received true] ∧
      writes t (mainStep t) =
        [Store.OCR1B 255, Store.PORTB (_BV PIN_REV ||| _BV PIN_LED),
         Store.data_received false] ∧
      (mainStep t).OCR1B = 255 ∧ (mainStep t).PORTB.testBit PIN_REV = true ∧
      (mainStep t).PORTB.testBit PIN_FW = false)) :=
  ⟨by decide, end_to_end rawReverse (by decide) (by decide) 20 4 (by decide) (by decide)⟩

end CtrlZoom
